import Mathlib

/-!
# Signalling relay and client mesh of the WebRTC video-call application

A shallow embedding of `server/server.js` (the socket.io signalling relay) and of the
peer bookkeeping of `client/src/pages/MeetPage.jsx`, followed by theorems about them.

* JavaScript values that cross the wire are modelled by `JSVal`.
* A JavaScript `Map` / `Set` is an association list / list in insertion order.
* The relay state is the two maps of `server.js` (`rooms`, `socketToRoom`) together with
  the room membership that socket.io itself keeps for connected sockets (`sids`).
* Every handler returns the new state and the list of `emit` calls it made.
-/

namespace VideoCall

/-! ## JavaScript values -/

/-- A JSON-like JavaScript value. Numbers are integers: the handlers only test them for
truthiness. -/
inductive JSVal where
  | undefined : JSVal
  | null : JSVal
  | bool (b : Bool) : JSVal
  | num (n : Int) : JSVal
  | str (s : String) : JSVal
  | arr (items : List JSVal) : JSVal
  | obj (fields : List (String × JSVal)) : JSVal

/-- JavaScript truthiness (what `!v` negates). -/
def JSVal.truthy : JSVal → Bool
  | .undefined => false
  | .null => false
  | .bool b => b
  | .num n => decide (n ≠ 0)
  | .str s => decide (s ≠ "")
  | .arr _ => true
  | .obj _ => true

/-- The operator `typeof`. -/
def JSVal.typeOf : JSVal → String
  | .undefined => "undefined"
  | .null => "object"
  | .bool _ => "boolean"
  | .num _ => "number"
  | .str _ => "string"
  | .arr _ => "object"
  | .obj _ => "object"

/-- Lookup of a field in the field list of an object literal. -/
def lookupField : List (String × JSVal) → String → JSVal
  | [], _ => .undefined
  | (k, v) :: rest, name => if k = name then v else lookupField rest name

/-- Property read `v.name` for the property names the handlers use (`userToSignal`,
`callerID`, `signal`, `type`, `candidate`): defined on objects, `undefined` on every other
value. The handlers never read a property of `null` or `undefined`, the `!payload ||` and
`signal &&` guards come first. -/
def JSVal.getProp : JSVal → String → JSVal
  | .obj fields, name => lookupField fields name
  | _, _ => .undefined

/-! ## Maps and sets in insertion order -/

/-- The call `m.get(k)` of a JavaScript `Map` keyed by strings. -/
def mapGet {β : Type} : List (String × β) → String → Option β
  | [], _ => none
  | (k, v) :: rest, key => if k = key then some v else mapGet rest key

/-- The call `m.set(k, v)`: an existing key keeps its position, a new key goes last. -/
def mapSet {β : Type} : List (String × β) → String → β → List (String × β)
  | [], key, val => [(key, val)]
  | (k, v) :: rest, key, val =>
    if k = key then (key, val) :: rest else (k, v) :: mapSet rest key val

/-- The call `m.delete(k)`. -/
def mapDelete {β : Type} : List (String × β) → String → List (String × β)
  | [], _ => []
  | (k, v) :: rest, key =>
    if k = key then mapDelete rest key else (k, v) :: mapDelete rest key

/-- The call `s.add(x)` of a JavaScript `Set`: no effect when `x` is present, else `x`
goes last. -/
def setAdd (s : List String) (x : String) : List String :=
  if x ∈ s then s else s ++ [x]

/-- The call `s.delete(x)`. -/
def setDelete (s : List String) (x : String) : List String :=
  s.filter (fun y => decide (y ≠ x))

/-! ## Relay state and messages -/

/-- The state of the relay. `rooms` and `socketToRoom` are the two module-level maps of
`server.js`. `sids` is the bookkeeping of socket.io: one entry per connected socket,
holding the socket.io rooms the socket is in. -/
structure ServerState where
  rooms : List (String × List String)
  socketToRoom : List (String × String)
  sids : List (String × List String)

/-- The state at process start: both maps empty, nobody connected. -/
def emptyState : ServerState := ⟨[], [], []⟩

/-- The three ways the handlers address a message. -/
inductive Addr where
  /-- As in `socket.emit(...)`: to the socket whose handler is running. -/
  | socket (id : String) : Addr
  /-- As in `io.to(target).emit(...)`: to the socket.io room named by `target`. -/
  | ioTo (target : JSVal) : Addr
  /-- As in `socket.to(room).emit(...)`: to the socket.io room `room`, the sender excepted. -/
  | socketTo (sender : String) (room : String) : Addr

/-- One `emit` call: address, event name and arguments. -/
structure Emit where
  addr : Addr
  event : String
  args : List JSVal

/-- The member set `rooms.get(roomID) || new Set()`. -/
def members (s : ServerState) (roomID : String) : List String :=
  (mapGet s.rooms roomID).getD []

/-! ## socket.io room bookkeeping -/

/-- A socket is connected when socket.io has an entry for it. -/
def connected (s : ServerState) (e : String) : Bool :=
  (mapGet s.sids e).isSome

/-- On connection socket.io puts the socket in the room named by its own id. -/
def adapterConnect (sids : List (String × List String)) (e : String) :
    List (String × List String) :=
  if (mapGet sids e).isSome then sids else sids ++ [(e, [e])]

/-- The call `socket.join(room)`. -/
def adapterJoin (sids : List (String × List String)) (e : String) (room : String) :
    List (String × List String) :=
  mapSet sids e (setAdd ((mapGet sids e).getD []) room)

/-- The connected sockets that are in socket.io room `room`. -/
def roomSockets (sids : List (String × List String)) (room : String) : List String :=
  (sids.filter (fun p => decide (room ∈ p.2))).map Prod.fst

/-- The sockets that receive `socket.to(room).emit(...)` sent by `sender`: the sockets in
`room` that are not in the room named by the sender id, which holds the sender and
whoever joined a room of that name. -/
def broadcastRecipients (sids : List (String × List String)) (sender room : String) :
    List String :=
  (roomSockets sids room).filter (fun x => decide (x ∉ roomSockets sids sender))

/-- The sockets that receive an emit. For `io.to(target)` with a string these are the
sockets in the socket.io room of that name; a target that is not a string is outside of
what is modelled of socket.io, the result is then `none`. -/
def recipients (sids : List (String × List String)) : Addr → Option (List String)
  | .socket e => some [e]
  | .ioTo (.str t) => some (roomSockets sids t)
  | .ioTo _ => none
  | .socketTo sender room => some (broadcastRecipients sids sender room)

/-! ## The handlers of `server.js` -/

/-- The capacity `MAX_PARTICIPANTS` of a room. -/
def MAX_PARTICIPANTS : Nat := 4

/-- The notification `socket.emit('error', { message: 'Invalid room ID' })`. -/
def invalidRoomError (e : String) : Emit :=
  ⟨.socket e, "error", [.obj [("message", .str "Invalid room ID")]]⟩

/-- Handler of `'join room'` for socket `e`. After the guard
`!roomID || typeof roomID !== 'string'` the argument is a non-empty string. -/
def joinRoom (s : ServerState) (e : String) (roomID : JSVal) : ServerState × List Emit :=
  if !roomID.truthy || decide (roomID.typeOf ≠ "string") then (s, [invalidRoomError e])
  else
    match roomID with
    | .str r =>
      let set := members s r
      if set.length ≥ MAX_PARTICIPANTS then (s, [⟨.socket e, "room full", []⟩])
      else
        let set1 := setAdd set e
        let otherClients := set1.filter (fun id => decide (id ≠ e))
        (⟨mapSet s.rooms r set1, mapSet s.socketToRoom e r, adapterJoin s.sids e r⟩,
          [⟨.socket e, "all users", [.arr (otherClients.map JSVal.str)]⟩])
    | _ => (s, [invalidRoomError e])

/-- Handler of `'sending signal'` for socket `e`. -/
def sendingSignal (s : ServerState) (_e : String) (payload : JSVal) :
    ServerState × List Emit :=
  if !payload.truthy || !(payload.getProp "userToSignal").truthy
      || !(payload.getProp "signal").truthy || !(payload.getProp "callerID").truthy then
    (s, [])
  else
    (s, [⟨.ioTo (payload.getProp "userToSignal"), "user joined",
          [.obj [("signal", payload.getProp "signal"),
                 ("callerID", payload.getProp "callerID")]]⟩])

/-- Handler of `'returning signal'` for socket `e`. -/
def returningSignal (s : ServerState) (e : String) (payload : JSVal) :
    ServerState × List Emit :=
  if !payload.truthy || !(payload.getProp "callerID").truthy
      || !(payload.getProp "signal").truthy then
    (s, [])
  else
    (s, [⟨.ioTo (payload.getProp "callerID"), "receiving returned signal",
          [.obj [("signal", payload.getProp "signal"), ("id", .str e)]]⟩])

/-- Handler of `'change'` for socket `e`. -/
def change (s : ServerState) (e : String) (payload : JSVal) : ServerState × List Emit :=
  match mapGet s.socketToRoom e with
  | some roomID =>
    if roomID = "" then (s, []) else (s, [⟨.socketTo e roomID, "change", [payload]⟩])
  | none => (s, [])

/-- Handler of `'disconnect'` for socket `e`. It runs after socket.io has taken the
socket out of all its rooms (see `step`). -/
def disconnect (s : ServerState) (e : String) : ServerState × List Emit :=
  match mapGet s.socketToRoom e with
  | some roomID =>
    if roomID = "" then (s, [])
    else
      let rooms1 :=
        match mapGet s.rooms roomID with
        | some set =>
          let set1 := setDelete set e
          if set1.length = 0 then mapDelete s.rooms roomID else mapSet s.rooms roomID set1
        | none => s.rooms
      (⟨rooms1, mapDelete s.socketToRoom e, s.sids⟩,
        [⟨.socketTo e roomID, "user left", [.str e]⟩])
  | none => (s, [])

/-- What a client can make the relay observe. -/
inductive Event where
  | connection (e : String) : Event
  | joinRoom (e : String) (roomID : JSVal) : Event
  | sendingSignal (e : String) (payload : JSVal) : Event
  | returningSignal (e : String) (payload : JSVal) : Event
  | change (e : String) (payload : JSVal) : Event
  | disconnect (e : String) : Event

/-- One event. The handlers are registered per connection, so an event of a socket that
is not connected runs nothing. On `disconnect` socket.io first removes the socket from
its rooms, then runs the handler. -/
def step (s : ServerState) : Event → ServerState × List Emit
  | .connection e => (⟨s.rooms, s.socketToRoom, adapterConnect s.sids e⟩, [])
  | .joinRoom e roomID => if connected s e then joinRoom s e roomID else (s, [])
  | .sendingSignal e payload => if connected s e then sendingSignal s e payload else (s, [])
  | .returningSignal e payload =>
    if connected s e then returningSignal s e payload else (s, [])
  | .change e payload => if connected s e then change s e payload else (s, [])
  | .disconnect e =>
    if connected s e then disconnect ⟨s.rooms, s.socketToRoom, mapDelete s.sids e⟩ e
    else (s, [])

/-- The state after a sequence of events. -/
def run (s : ServerState) : List Event → ServerState
  | [] => s
  | ev :: rest => run (step s ev).1 rest

/-! ## Well-behaved event sequences -/

/-- No endpoint sends `'join room'` while `socketToRoom` already records a room for it.
The client of this repository sends `'join room'` once, when its socket connects. -/
def joinsOnce : ServerState → List Event → Bool
  | _, [] => true
  | s, ev :: rest =>
    (match ev with
      | .joinRoom e _ => (mapGet s.socketToRoom e).isNone
      | _ => true) && joinsOnce (step s ev).1 rest

/-- The socket ids of the connections in an event sequence. -/
def endpointIds : List Event → List String
  | [] => []
  | .connection e :: rest => e :: endpointIds rest
  | _ :: rest => endpointIds rest

/-- The strings asked for as room ids in an event sequence. -/
def requestedRooms : List Event → List String
  | [] => []
  | .joinRoom _ (.str r) :: rest => r :: requestedRooms rest
  | _ :: rest => requestedRooms rest

/-- An event respects a fixed set `ids` of socket ids: connections carry an id of the
set, rooms are named outside of it. -/
def apart (ids : List String) : Event → Prop
  | .connection e => e ∈ ids
  | .joinRoom _ (.str r) => r ∉ ids
  | _ => True

/-- Scan of an event sequence from state `s`, whose first event has position `k`: the
position of the last event by which `x` entered the member set of room `r`, or `acc` when
no event of the sequence did. -/
def joinTimeFrom (r x : String) : ServerState → Nat → Option Nat → List Event → Option Nat
  | _, _, acc, [] => acc
  | s, k, acc, ev :: rest =>
    joinTimeFrom r x (step s ev).1 (k + 1)
      (if x ∉ members s r ∧ x ∈ members (step s ev).1 r then some k else acc) rest

/-- The position, in a sequence of events run from the empty state, of the last event by
which `x` entered the member set of room `r`. -/
def joinTime (evs : List Event) (r x : String) : Option Nat :=
  joinTimeFrom r x emptyState 0 none evs

/-! ## Client: the peer bookkeeping of `MeetPage.jsx` -/

/-- What the client keeps track of in one `RTCPeerConnection`. `remote` is the
`peerSocketId` captured by the callbacks of `createPeerConnection`. -/
structure PeerConn where
  remote : String
  tracks : List String
  remoteDescription : Option JSVal
  localDescription : Option JSVal
  candidates : List JSVal

/-- The browser behind `RTCPeerConnection`: whether an awaited operation succeeds, and
the description that `createOffer` / `createAnswer` produce. A failure is a rejected
promise, which the `try`/`catch` of the caller absorbs. -/
structure WebRTC where
  createOffer : PeerConn → Option JSVal
  createAnswer : PeerConn → Option JSVal
  setLocalDescription : PeerConn → JSVal → Bool
  setRemoteDescription : PeerConn → JSVal → Bool
  addIceCandidate : PeerConn → JSVal → Bool

/-- The client state. `peers` is `peersRef.current`: it maps a remote socket id to a
reference to a peer connection, an index into `heap`, the peer connections constructed
so far. `sent` lists the messages emitted to the relay. The list holds the own
properties of the object; a read also sees what the object inherits, see
`findOrCreatePeer`. -/
structure ClientState where
  id : String
  peers : List (String × Nat)
  heap : List PeerConn
  sent : List (String × JSVal)

/-- The strict comparison `v === s` with a string. -/
def JSVal.isStr : JSVal → String → Bool
  | .str t, s => decide (t = s)
  | _, _ => false

/-- The object `pc.localDescription`. -/
def descriptionOf (pc : PeerConn) : JSVal :=
  pc.localDescription.getD .null

/-- The function `createPeerConnection(peerSocketId)`: a new connection object. -/
def createPeerConnection (peerSocketId : String) : PeerConn :=
  ⟨peerSocketId, [], none, none, []⟩

/-- The calls `pc.addTrack(track, stream)` for every track of the stream. -/
def addTracks (pc : PeerConn) (stream : List String) : PeerConn :=
  ⟨pc.remote, pc.tracks ++ stream, pc.remoteDescription, pc.localDescription,
    pc.candidates⟩

/-- A successful `pc.setLocalDescription(d)`. -/
def withLocalDescription (pc : PeerConn) (d : JSVal) : PeerConn :=
  ⟨pc.remote, pc.tracks, pc.remoteDescription, some d, pc.candidates⟩

/-- A successful `pc.setRemoteDescription(d)`. -/
def withRemoteDescription (pc : PeerConn) (d : JSVal) : PeerConn :=
  ⟨pc.remote, pc.tracks, some d, pc.localDescription, pc.candidates⟩

/-- A successful `pc.addIceCandidate(c)`. -/
def withCandidate (pc : PeerConn) (cand : JSVal) : PeerConn :=
  ⟨pc.remote, pc.tracks, pc.remoteDescription, pc.localDescription, pc.candidates ++ [cand]⟩

/-- The function `createOfferForUser(userToSignal, stream)` up to its first `await`: the
part that runs inside the `forEach` of the `'all users'` handler. It returns the state
and the reference to the new connection. -/
def createOfferForUser (c : ClientState) (userToSignal : String) (stream : List String) :
    ClientState × Nat :=
  let pc := c.heap.length
  (⟨c.id, mapSet c.peers userToSignal pc,
    c.heap ++ [addTracks (createPeerConnection userToSignal) stream], c.sent⟩, pc)

/-- The rest of `createOfferForUser`, run when the awaited offer is ready: the
`try`/`catch` around `createOffer`, `setLocalDescription` and the emit. -/
def createOfferForUserResume (w : WebRTC) (c : ClientState) (userToSignal : String)
    (pc : Nat) : ClientState :=
  match c.heap[pc]? with
  | none => c
  | some conn =>
    match w.createOffer conn with
    | none => c
    | some offer =>
      if w.setLocalDescription conn offer then
        ⟨c.id, c.peers, c.heap.set pc (withLocalDescription conn offer),
          c.sent ++ [("sending signal", .obj [("userToSignal", .str userToSignal),
            ("callerID", .str c.id),
            ("signal", descriptionOf (withLocalDescription conn offer))])]⟩
      else c

/-- Handler of `'all users'`: `users.forEach((userID) => createOfferForUser(userID, stream))`. -/
def onAllUsers (c : ClientState) (users : List String) (stream : List String) :
    ClientState :=
  users.foldl (fun st userID => (createOfferForUser st userID stream).1) c

/-- The names of the properties that a plain object inherits from `Object.prototype`.
Each of them holds a function or an object: a truthy value that has none of the methods
of a peer connection. -/
def objectPrototypeKeys : List String :=
  ["constructor", "__defineGetter__", "__defineSetter__", "hasOwnProperty",
    "__lookupGetter__", "__lookupSetter__", "isPrototypeOf", "propertyIsEnumerable",
    "toString", "valueOf", "__proto__", "toLocaleString"]

/-- The first lines of `handleIncomingSignal`: `let pc = peersRef.current[callerID]`, and
when that is falsy, create a connection, add the local tracks and store it. The read
finds the own property, or else the inherited one: then `pc` is no peer connection, which
is the result `none`, and nothing is created. -/
def findOrCreatePeer (c : ClientState) (callerID : String) (stream : Option (List String)) :
    ClientState × Option Nat :=
  match mapGet c.peers callerID with
  | some pc => (c, some pc)
  | none =>
    if callerID ∈ objectPrototypeKeys then (c, none)
    else
      let pc := c.heap.length
      (⟨c.id, mapSet c.peers callerID pc,
        c.heap ++ [addTracks (createPeerConnection callerID) (stream.getD [])], c.sent⟩,
        some pc)

/-- The function `handleIncomingSignal(signal, callerID, stream)`, which the
`'user joined'` handler calls with the fields of the message; `callerID` is the property
key that the field denotes. The awaited browser calls are taken in one go; `peers` is
written before the first of them and not afterwards. On a `pc` that is no peer connection
the method call throws inside the `try`, and a signal that is neither an offer nor a
candidate calls nothing: either way the state stays. -/
def handleIncomingSignal (w : WebRTC) (c : ClientState) (signal : JSVal)
    (callerID : String) (stream : Option (List String)) : ClientState :=
  let c1 := (findOrCreatePeer c callerID stream).1
  match (findOrCreatePeer c callerID stream).2 with
  | none => c1
  | some pc =>
    match c1.heap[pc]? with
    | none => c1
    | some conn =>
      if signal.truthy && (signal.getProp "type").isStr "offer" then
        if w.setRemoteDescription conn signal then
          let conn1 := withRemoteDescription conn signal
          match w.createAnswer conn1 with
          | none => ⟨c1.id, c1.peers, c1.heap.set pc conn1, c1.sent⟩
          | some answer =>
            if w.setLocalDescription conn1 answer then
              let conn2 := withLocalDescription conn1 answer
              ⟨c1.id, c1.peers, c1.heap.set pc conn2,
                c1.sent ++ [("returning signal", .obj [("callerID", .str callerID),
                  ("signal", descriptionOf conn2)])]⟩
            else ⟨c1.id, c1.peers, c1.heap.set pc conn1, c1.sent⟩
        else c1
      else if signal.truthy && (signal.getProp "candidate").truthy then
        if w.addIceCandidate conn signal then
          ⟨c1.id, c1.peers, c1.heap.set pc (withCandidate conn signal), c1.sent⟩
        else c1
      else c1

/-- A browser for the examples: descriptions are accepted as given, a candidate is
accepted once the remote description is set. -/
def sampleBrowser : WebRTC where
  createOffer := fun _ => some (.obj [("type", .str "offer")])
  createAnswer := fun _ => some (.obj [("type", .str "answer")])
  setLocalDescription := fun _ _ => true
  setRemoteDescription := fun _ _ => true
  addIceCandidate := fun pc _ => pc.remoteDescription.isSome

/-- A client that has its media stream and no peer yet. -/
def freshClient : ClientState := ⟨"me", [], [], []⟩

/-! ## Scenarios -/

/-- Sockets A, B, C connect and join room "abc"; socket D connects. -/
def threeJoined : List Event :=
  [.connection "A", .joinRoom "A" (.str "abc"), .connection "B", .joinRoom "B" (.str "abc"),
    .connection "C", .joinRoom "C" (.str "abc"), .connection "D"]

/-- Sockets X, Y, Z, W connect and join room "abc" in this order; socket V connects. -/
def fourJoined : List Event :=
  [.connection "X", .joinRoom "X" (.str "abc"), .connection "Y", .joinRoom "Y" (.str "abc"),
    .connection "Z", .joinRoom "Z" (.str "abc"), .connection "W", .joinRoom "W" (.str "abc"),
    .connection "V"]

/-- Sockets X, Y, Z connect and join room "abc" in this order, Y disconnects, socket V
connects. -/
def oneLeft : List Event :=
  [.connection "X", .joinRoom "X" (.str "abc"), .connection "Y", .joinRoom "Y" (.str "abc"),
    .connection "Z", .joinRoom "Z" (.str "abc"), .disconnect "Y", .connection "V"]

/-- Socket E connects and joins room "a", then room "b". -/
def joinedTwice : List Event :=
  [.connection "E", .joinRoom "E" (.str "a"), .joinRoom "E" (.str "b")]

/-- Sockets A and C join room "a", socket B joins room "b". -/
def twoRooms : List Event :=
  [.connection "A", .joinRoom "A" (.str "a"), .connection "B", .joinRoom "B" (.str "b"),
    .connection "C", .joinRoom "C" (.str "a")]

/-- An SDP offer as a signal body. -/
def sampleOffer : JSVal := .obj [("type", .str "offer"), ("sdp", .str "v=0")]

/-- An ICE candidate as a signal body. -/
def sampleCandidate : JSVal :=
  .obj [("candidate", .str "candidate:1 1 udp 1 192.0.2.1 5000 typ host"),
    ("sdpMid", .str "0")]

/-! ## Invariants -/

/-- What holds of the two maps after any sequence of events: they behave as a `Map` of
`Set`s (no key twice, no member twice), no member set exceeds the capacity, and the
recorded room of a socket is a non-empty string. -/
structure Sound (s : ServerState) : Prop where
  roomKeys : (s.rooms.map Prod.fst).Nodup
  memberSets : ∀ p ∈ s.rooms, p.2.Nodup
  capacity : ∀ p ∈ s.rooms, p.2.length ≤ 4
  recorded : ∀ x r, mapGet s.socketToRoom x = some r → r ≠ ""
  socketKeys : (s.sids.map Prod.fst).Nodup

/-- Every member of a room is recorded in `socketToRoom` with that room. -/
def Exclusive (s : ServerState) : Prop :=
  ∀ r x, x ∈ members s r → mapGet s.socketToRoom x = some r

/-- For endpoints that join once and rooms not named like a socket: the members of a
room are connected, and a connected socket is in exactly the socket.io room of its own
id and the rooms whose member set lists it. -/
structure Mirrored (ids : List String) (s : ServerState) : Prop where
  membersConnected : ∀ r x, x ∈ members s r → x ∈ s.sids.map Prod.fst
  adapter : ∀ q ∈ s.sids, ∀ r, r ∈ q.2 ↔ (r = q.1 ∨ q.1 ∈ members s r)
  socketIds : ∀ q ∈ s.sids, q.1 ∈ ids
  roomIds : ∀ r x, x ∈ members s r → r ∉ ids

/-- A connected socket is in the socket.io room of its own id, and every other room it
is in has a name outside of `ids`. -/
structure OwnRooms (ids : List String) (s : ServerState) : Prop where
  own : ∀ q ∈ s.sids, q.1 ∈ q.2
  others : ∀ q ∈ s.sids, ∀ r ∈ q.2, r = q.1 ∨ r ∉ ids

/-- Every entry of `peers` refers to a connection created for its key. -/
def Linked (c : ClientState) : Prop :=
  ∀ u pc, mapGet c.peers u = some pc → ∃ conn, c.heap[pc]? = some conn ∧ conn.remote = u

/-! ## Lemmas on maps and sets -/

theorem mapGet_mapSet {β : Type} (m : List (String × β)) (k k1 : String) (v : β) :
    mapGet (mapSet m k v) k1 = if k = k1 then some v else mapGet m k1 := by
  induction m with
  | nil => simp [mapSet, mapGet]
  | cons p rest ih =>
    obtain ⟨a, b⟩ := p
    simp only [mapSet, mapGet]
    split_ifs <;> simp_all [mapGet]

theorem mapGet_mapDelete {β : Type} (m : List (String × β)) (k k1 : String) :
    mapGet (mapDelete m k) k1 = if k = k1 then none else mapGet m k1 := by
  induction m with
  | nil => simp [mapDelete, mapGet]
  | cons p rest ih =>
    obtain ⟨a, b⟩ := p
    simp only [mapDelete, mapGet]
    split_ifs <;> simp_all [mapGet]

theorem mapDelete_eq_filter {β : Type} (m : List (String × β)) (k : String) :
    mapDelete m k = m.filter (fun p => decide (p.1 ≠ k)) := by
  induction m with
  | nil => simp [mapDelete]
  | cons p rest ih =>
    obtain ⟨a, b⟩ := p
    by_cases hak : a = k <;> simp [mapDelete, List.filter_cons, hak, ih]

theorem mem_mapDelete {β : Type} (m : List (String × β)) (k : String) (p : String × β) :
    p ∈ mapDelete m k ↔ p ∈ m ∧ p.1 ≠ k := by
  simp [mapDelete_eq_filter, List.mem_filter]

theorem mem_of_mapGet {β : Type} (m : List (String × β)) (k : String) (v : β)
    (h : mapGet m k = some v) : (k, v) ∈ m := by
  induction m with
  | nil => simp [mapGet] at h
  | cons p rest ih =>
    obtain ⟨a, b⟩ := p
    by_cases hak : a = k
    · simp [mapGet, hak] at h
      simp [hak, h]
    · simp [mapGet, hak] at h
      exact List.mem_cons_of_mem _ (ih h)

theorem mapGet_of_mem {β : Type} (m : List (String × β)) (k : String) (v : β)
    (hk : (m.map Prod.fst).Nodup) (h : (k, v) ∈ m) : mapGet m k = some v := by
  induction m with
  | nil => simp at h
  | cons p rest ih =>
    obtain ⟨a, b⟩ := p
    simp only [List.map_cons, List.nodup_cons] at hk
    rcases List.mem_cons.1 h with heq | hmem
    · cases heq
      simp [mapGet]
    · have hne : a ≠ k := by
        intro hak
        subst hak
        exact hk.1 (List.mem_map.2 ⟨(a, v), hmem, rfl⟩)
      simp [mapGet, hne, ih hk.2 hmem]

theorem mapGet_eq_none_iff {β : Type} (m : List (String × β)) (k : String) :
    mapGet m k = none ↔ k ∉ m.map Prod.fst := by
  induction m with
  | nil => simp [mapGet]
  | cons p rest ih =>
    obtain ⟨a, b⟩ := p
    by_cases hak : a = k
    · simp [mapGet, hak]
    · have hka : ¬ k = a := fun h => hak h.symm
      simp [mapGet, hak, hka, ih]

theorem keys_mapSet {β : Type} (m : List (String × β)) (k : String) (v : β) :
    (mapSet m k v).map Prod.fst
      = if k ∈ m.map Prod.fst then m.map Prod.fst else m.map Prod.fst ++ [k] := by
  induction m with
  | nil => simp [mapSet]
  | cons p rest ih =>
    obtain ⟨a, b⟩ := p
    by_cases hak : a = k
    · subst hak
      simp [mapSet]
    · have hka : ¬ k = a := fun h => hak h.symm
      by_cases hmem : k ∈ rest.map Prod.fst
      · simp only [mapSet, hak, if_false, List.map_cons, ih, hmem, if_true,
          List.mem_cons, or_true]
      · simp only [mapSet, hak, if_false, List.map_cons, ih, hmem, List.mem_cons, hka,
          or_self, List.cons_append]

theorem nodup_keys_mapSet {β : Type} (m : List (String × β)) (k : String) (v : β)
    (h : (m.map Prod.fst).Nodup) : ((mapSet m k v).map Prod.fst).Nodup := by
  rw [keys_mapSet]
  by_cases hmem : k ∈ m.map Prod.fst
  · simpa [hmem] using h
  · simp only [hmem, if_false]
    exact List.Nodup.append h (List.nodup_singleton k) (by simpa using hmem)

theorem nodup_keys_mapDelete {β : Type} (m : List (String × β)) (k : String)
    (h : (m.map Prod.fst).Nodup) : ((mapDelete m k).map Prod.fst).Nodup := by
  rw [mapDelete_eq_filter]
  exact List.Nodup.sublist (List.Sublist.map _ (List.filter_sublist _)) h

theorem mem_mapSet {β : Type} (m : List (String × β)) (k : String) (v : β)
    (p : String × β) (h : p ∈ mapSet m k v) : p = (k, v) ∨ (p ∈ m ∧ p.1 ≠ k) ∨
      (p ∈ m ∧ ¬ (m.map Prod.fst).Nodup) := by
  induction m with
  | nil =>
    simp [mapSet] at h
    exact Or.inl h
  | cons q rest ih =>
    obtain ⟨a, b⟩ := q
    by_cases hak : a = k
    · subst hak
      simp only [mapSet, if_true, List.mem_cons] at h
      rcases h with h | h
      · exact Or.inl h
      · by_cases hp : p.1 = a
        · refine Or.inr (Or.inr ⟨List.mem_cons_of_mem _ h, ?_⟩)
          simp only [List.map_cons, List.nodup_cons, not_and_or, not_not]
          exact Or.inl (List.mem_map.2 ⟨p, h, hp⟩)
        · exact Or.inr (Or.inl ⟨List.mem_cons_of_mem _ h, hp⟩)
    · simp only [mapSet, hak, if_false, List.mem_cons] at h
      rcases h with h | h
      · subst h
        exact Or.inr (Or.inl ⟨List.mem_cons_self _ _, hak⟩)
      · rcases ih h with h1 | h1 | h1
        · exact Or.inl h1
        · exact Or.inr (Or.inl ⟨List.mem_cons_of_mem _ h1.1, h1.2⟩)
        · refine Or.inr (Or.inr ⟨List.mem_cons_of_mem _ h1.1, ?_⟩)
          simp only [List.map_cons, List.nodup_cons, not_and_or]
          exact Or.inr h1.2

theorem mem_mapSet_of_nodup {β : Type} (m : List (String × β)) (k : String) (v : β)
    (p : String × β) (hk : (m.map Prod.fst).Nodup) (h : p ∈ mapSet m k v) :
    p = (k, v) ∨ (p ∈ m ∧ p.1 ≠ k) := by
  rcases mem_mapSet m k v p h with h1 | h1 | h1
  · exact Or.inl h1
  · exact Or.inr h1
  · exact absurd hk h1.2

theorem mem_mapSet_weak {β : Type} (m : List (String × β)) (k : String) (v : β)
    (p : String × β) (h : p ∈ mapSet m k v) : p = (k, v) ∨ p ∈ m := by
  rcases mem_mapSet m k v p h with h1 | h1 | h1
  · exact Or.inl h1
  · exact Or.inr h1.1
  · exact Or.inr h1.1

theorem mapSet_of_mapGet_none {β : Type} (m : List (String × β)) (k : String) (v : β)
    (h : mapGet m k = none) : mapSet m k v = m ++ [(k, v)] := by
  induction m with
  | nil => simp [mapSet]
  | cons p rest ih =>
    obtain ⟨a, b⟩ := p
    by_cases hak : a = k
    · simp [mapGet, hak] at h
    · simp only [mapGet, hak, if_false] at h
      simp [mapSet, hak, ih h]

theorem mem_setAdd (s : List String) (x y : String) : y ∈ setAdd s x ↔ y ∈ s ∨ y = x := by
  unfold setAdd
  by_cases h : x ∈ s
  · simp only [h, if_true]
    constructor
    · exact Or.inl
    · rintro (h1 | h1)
      · exact h1
      · exact h1 ▸ h
  · simp [h]

theorem nodup_setAdd (s : List String) (x : String) (h : s.Nodup) : (setAdd s x).Nodup := by
  unfold setAdd
  by_cases hx : x ∈ s
  · simpa [hx] using h
  · simp only [hx, if_false]
    exact List.Nodup.append h (List.nodup_singleton x) (by simpa using hx)

theorem length_setAdd_le (s : List String) (x : String) :
    (setAdd s x).length ≤ s.length + 1 := by
  unfold setAdd
  by_cases hx : x ∈ s <;> simp [hx]

theorem mem_setDelete (s : List String) (x y : String) :
    y ∈ setDelete s x ↔ y ∈ s ∧ y ≠ x := by
  simp [setDelete, List.mem_filter]

theorem nodup_setDelete (s : List String) (x : String) (h : s.Nodup) :
    (setDelete s x).Nodup := by
  unfold setDelete
  exact List.Nodup.sublist (List.filter_sublist _) h

theorem length_setDelete_le (s : List String) (x : String) :
    (setDelete s x).length ≤ s.length := by
  unfold setDelete
  exact List.length_filter_le _ _

theorem filter_ne_of_not_mem (s : List String) (x : String) (h : x ∉ s) :
    s.filter (fun y => decide (y ≠ x)) = s := by
  rw [List.filter_eq_self]
  intro a ha
  have : a ≠ x := fun hax => h (hax ▸ ha)
  simpa using this

/-! ## The handlers, case by case -/

theorem joinRoom_invalid (s : ServerState) (e : String) (roomID : JSVal)
    (h : ∀ r, roomID = .str r → r = "") :
    joinRoom s e roomID = (s, [invalidRoomError e]) := by
  cases roomID with
  | str r => simp [joinRoom, JSVal.truthy, h r rfl]
  | _ => simp [joinRoom, JSVal.truthy, JSVal.typeOf]

theorem joinRoom_full (s : ServerState) (e r : String) (hr : r ≠ "")
    (hfull : 4 ≤ (members s r).length) :
    joinRoom s e (.str r) = (s, [⟨.socket e, "room full", []⟩]) := by
  simp [joinRoom, JSVal.truthy, JSVal.typeOf, hr, MAX_PARTICIPANTS, hfull]

theorem joinRoom_accept (s : ServerState) (e r : String) (hr : r ≠ "")
    (hroom : (members s r).length < 4) :
    joinRoom s e (.str r)
      = (⟨mapSet s.rooms r (setAdd (members s r) e), mapSet s.socketToRoom e r,
            adapterJoin s.sids e r⟩,
          [⟨.socket e, "all users",
            [.arr (((setAdd (members s r) e).filter (fun id => decide (id ≠ e))).map
              JSVal.str)]⟩]) := by
  have h : ¬ (4 ≤ (members s r).length) := by omega
  simp [joinRoom, JSVal.truthy, JSVal.typeOf, hr, MAX_PARTICIPANTS, h]

theorem joinRoom_state (s : ServerState) (e : String) (roomID : JSVal) :
    (joinRoom s e roomID).1 = s ∨
      ∃ r, roomID = .str r ∧ r ≠ "" ∧ (members s r).length < 4 ∧
        (joinRoom s e roomID).1 = ⟨mapSet s.rooms r (setAdd (members s r) e),
          mapSet s.socketToRoom e r, adapterJoin s.sids e r⟩ := by
  by_cases hv : ∀ r, roomID = .str r → r = ""
  · left
    rw [joinRoom_invalid s e roomID hv]
  · push_neg at hv
    obtain ⟨r, hstr, hr⟩ := hv
    subst hstr
    by_cases hfull : 4 ≤ (members s r).length
    · left
      rw [joinRoom_full s e r hr hfull]
    · right
      have hlt : (members s r).length < 4 := by omega
      exact ⟨r, rfl, hr, hlt, by rw [joinRoom_accept s e r hr hlt]⟩

theorem disconnect_idle (s : ServerState) (e : String)
    (h : mapGet s.socketToRoom e = none ∨ mapGet s.socketToRoom e = some "") :
    disconnect s e = (s, []) := by
  rcases h with h | h <;> simp [disconnect, h]

theorem disconnect_recorded (s : ServerState) (e r : String)
    (h : mapGet s.socketToRoom e = some r) (hr : r ≠ "") :
    disconnect s e
      = (⟨(match mapGet s.rooms r with
            | some set =>
              if (setDelete set e).length = 0 then mapDelete s.rooms r
              else mapSet s.rooms r (setDelete set e)
            | none => s.rooms),
          mapDelete s.socketToRoom e, s.sids⟩,
        [⟨.socketTo e r, "user left", [.str e]⟩]) := by
  simp [disconnect, h, hr]

theorem disconnect_state (s : ServerState) (e : String) :
    (disconnect s e).1 = s ∨
      ∃ r, mapGet s.socketToRoom e = some r ∧ r ≠ "" ∧
        (((disconnect s e).1 = ⟨s.rooms, mapDelete s.socketToRoom e, s.sids⟩ ∧
            mapGet s.rooms r = none) ∨
          ∃ set, mapGet s.rooms r = some set ∧
            (((setDelete set e).length = 0 ∧
                (disconnect s e).1 = ⟨mapDelete s.rooms r, mapDelete s.socketToRoom e,
                  s.sids⟩) ∨
              ((setDelete set e).length ≠ 0 ∧
                (disconnect s e).1 = ⟨mapSet s.rooms r (setDelete set e),
                  mapDelete s.socketToRoom e, s.sids⟩))) := by
  cases hrec : mapGet s.socketToRoom e with
  | none =>
    left
    rw [disconnect_idle s e (Or.inl hrec)]
  | some r =>
    by_cases hr : r = ""
    · left
      subst hr
      rw [disconnect_idle s e (Or.inr hrec)]
    · right
      refine ⟨r, rfl, hr, ?_⟩
      rw [disconnect_recorded s e r hrec hr]
      cases hset : mapGet s.rooms r with
      | none => exact Or.inl ⟨rfl, rfl⟩
      | some set =>
        right
        refine ⟨set, rfl, ?_⟩
        by_cases hlen : (setDelete set e).length = 0
        · exact Or.inl ⟨hlen, by simp [hlen]⟩
        · exact Or.inr ⟨hlen, by simp [hlen]⟩

theorem sendingSignal_state (s : ServerState) (e : String) (payload : JSVal) :
    (sendingSignal s e payload).1 = s := by
  unfold sendingSignal
  split <;> rfl

theorem returningSignal_state (s : ServerState) (e : String) (payload : JSVal) :
    (returningSignal s e payload).1 = s := by
  unfold returningSignal
  split <;> rfl

theorem change_state (s : ServerState) (e : String) (payload : JSVal) :
    (change s e payload).1 = s := by
  unfold change
  split
  · split <;> rfl
  · rfl

theorem members_of_mem (s : ServerState) (r : String) (x : String)
    (h : x ∈ members s r) : ∃ set, (r, set) ∈ s.rooms ∧ mapGet s.rooms r = some set ∧
      members s r = set := by
  unfold members at h ⊢
  cases hget : mapGet s.rooms r with
  | none => simp [hget] at h
  | some set => exact ⟨set, mem_of_mapGet _ _ _ hget, rfl, rfl⟩

/-! ## Invariants of every reachable relay state -/

theorem sound_emptyState : Sound emptyState :=
  ⟨by simp [emptyState], by simp [emptyState], by simp [emptyState],
    by simp [emptyState, mapGet], by simp [emptyState]⟩

theorem members_nodup (s : ServerState) (hs : Sound s) (r : String) :
    (members s r).Nodup := by
  unfold members
  cases hget : mapGet s.rooms r with
  | none => simp
  | some set => exact hs.memberSets _ (mem_of_mapGet _ _ _ hget)

theorem members_length (s : ServerState) (hs : Sound s) (r : String) :
    (members s r).length ≤ 4 := by
  unfold members
  cases hget : mapGet s.rooms r with
  | none => simp
  | some set => exact hs.capacity _ (mem_of_mapGet _ _ _ hget)

theorem sound_joinRoom (s : ServerState) (e : String) (roomID : JSVal) (hs : Sound s) :
    Sound (joinRoom s e roomID).1 := by
  rcases joinRoom_state s e roomID with h | ⟨r, _, hr, hlt, h⟩
  · rw [h]
    exact hs
  · rw [h]
    refine ⟨nodup_keys_mapSet _ _ _ hs.roomKeys, ?_, ?_, ?_, ?_⟩
    · intro p hp
      rcases mem_mapSet_weak _ _ _ _ hp with h1 | h1
      · subst h1
        exact nodup_setAdd _ _ (members_nodup s hs r)
      · exact hs.memberSets p h1
    · intro p hp
      rcases mem_mapSet_weak _ _ _ _ hp with h1 | h1
      · subst h1
        have := length_setAdd_le (members s r) e
        show (setAdd (members s r) e).length ≤ 4
        omega
      · exact hs.capacity p h1
    · intro x r1 hx
      simp only [mapGet_mapSet] at hx
      by_cases hex : e = x
      · simp only [hex, if_true, Option.some.injEq] at hx
        exact hx ▸ hr
      · simp only [hex, if_false] at hx
        exact hs.recorded x r1 hx
    · exact nodup_keys_mapSet _ _ _ hs.socketKeys

theorem sound_disconnect (s : ServerState) (e : String) (hs : Sound s) :
    Sound (disconnect s e).1 := by
  have hrec : ∀ x r, mapGet (mapDelete s.socketToRoom e) x = some r → r ≠ "" := by
    intro x r1 hx
    simp only [mapGet_mapDelete] at hx
    by_cases hex : e = x
    · simp [hex] at hx
    · simp only [hex, if_false] at hx
      exact hs.recorded x r1 hx
  rcases disconnect_state s e with h | ⟨r, _, _, h⟩
  · rw [h]
    exact hs
  · rcases h with ⟨h, _⟩ | ⟨set, hset, ⟨_, h⟩ | ⟨_, h⟩⟩
    · rw [h]
      exact ⟨hs.roomKeys, hs.memberSets, hs.capacity, hrec, hs.socketKeys⟩
    · rw [h]
      refine ⟨nodup_keys_mapDelete _ _ hs.roomKeys, ?_, ?_, hrec, hs.socketKeys⟩
      · intro p hp
        exact hs.memberSets p ((mem_mapDelete _ _ _).1 hp).1
      · intro p hp
        exact hs.capacity p ((mem_mapDelete _ _ _).1 hp).1
    · rw [h]
      have hmem := mem_of_mapGet _ _ _ hset
      refine ⟨nodup_keys_mapSet _ _ _ hs.roomKeys, ?_, ?_, hrec, hs.socketKeys⟩
      · intro p hp
        rcases mem_mapSet_weak _ _ _ _ hp with h1 | h1
        · subst h1
          exact nodup_setDelete _ _ (hs.memberSets _ hmem)
        · exact hs.memberSets p h1
      · intro p hp
        rcases mem_mapSet_weak _ _ _ _ hp with h1 | h1
        · subst h1
          have h2 := length_setDelete_le set e
          have h3 := hs.capacity _ hmem
          show (setDelete set e).length ≤ 4
          simp only at h3
          omega
        · exact hs.capacity p h1

theorem nodup_keys_adapterConnect (sids : List (String × List String)) (e : String)
    (h : (sids.map Prod.fst).Nodup) : ((adapterConnect sids e).map Prod.fst).Nodup := by
  unfold adapterConnect
  cases hget : mapGet sids e with
  | some rs => simpa using h
  | none =>
    simp only [Option.isSome_none, Bool.false_eq_true, if_false, List.map_append,
      List.map_cons, List.map_nil]
    exact List.Nodup.append h (List.nodup_singleton e)
      (by simpa using (mapGet_eq_none_iff sids e).1 hget)

theorem sound_step (s : ServerState) (ev : Event) (hs : Sound s) : Sound (step s ev).1 := by
  cases ev with
  | connection e =>
    exact ⟨hs.roomKeys, hs.memberSets, hs.capacity, hs.recorded,
      nodup_keys_adapterConnect _ _ hs.socketKeys⟩
  | joinRoom e roomID =>
    simp only [step]
    split
    · exact sound_joinRoom s e roomID hs
    · exact hs
  | sendingSignal e payload =>
    simp only [step]
    split
    · rw [sendingSignal_state]
      exact hs
    · exact hs
  | returningSignal e payload =>
    simp only [step]
    split
    · rw [returningSignal_state]
      exact hs
    · exact hs
  | change e payload =>
    simp only [step]
    split
    · rw [change_state]
      exact hs
    · exact hs
  | disconnect e =>
    simp only [step]
    split
    · exact sound_disconnect _ e ⟨hs.roomKeys, hs.memberSets, hs.capacity, hs.recorded,
        nodup_keys_mapDelete _ _ hs.socketKeys⟩
    · exact hs

theorem sound_run (evs : List Event) (s : ServerState) (hs : Sound s) :
    Sound (run s evs) := by
  induction evs generalizing s with
  | nil => exact hs
  | cons ev rest ih => exact ih _ (sound_step s ev hs)

/-! ## Member sets after a join and after a disconnect -/

theorem members_mapSet (s : ServerState) (r r1 : String) (set : List String)
    (m : List (String × String)) (a : List (String × List String)) :
    members ⟨mapSet s.rooms r set, m, a⟩ r1 = if r = r1 then set else members s r1 := by
  unfold members
  simp only [mapGet_mapSet]
  split_ifs <;> rfl

theorem members_disconnect (s : ServerState) (e r r1 : String)
    (h : mapGet s.socketToRoom e = some r) (hr : r ≠ "") :
    members (disconnect s e).1 r1
      = if r = r1 then setDelete (members s r1) e else members s r1 := by
  rw [disconnect_recorded s e r h hr]
  unfold members
  cases hset : mapGet s.rooms r with
  | none =>
    by_cases hrr : r = r1
    · subst hrr
      simp [hset, setDelete]
    · simp [hrr]
  | some set =>
    by_cases hlen : (setDelete set e).length = 0
    · simp only [hlen, if_true, mapGet_mapDelete]
      by_cases hrr : r = r1
      · subst hrr
        simp [hset, List.length_eq_zero.1 hlen]
      · simp [hrr]
    · simp only [hlen, if_false, mapGet_mapSet]
      by_cases hrr : r = r1
      · subst hrr
        simp [hset]
      · simp [hrr]

theorem members_eq_of_mem (s : ServerState) (hs : Sound s) (p : String × List String)
    (hp : p ∈ s.rooms) : members s p.1 = p.2 := by
  unfold members
  rw [mapGet_of_mem s.rooms p.1 p.2 hs.roomKeys hp]
  rfl

/-! ## One room per endpoint, for endpoints that join once -/

theorem exclusive_emptyState : Exclusive emptyState := by
  intro r x hx
  simp [members, emptyState, mapGet] at hx

theorem exclusive_joinRoom (s : ServerState) (e : String) (roomID : JSVal)
    (hx : Exclusive s) (hnew : mapGet s.socketToRoom e = none) :
    Exclusive (joinRoom s e roomID).1 := by
  rcases joinRoom_state s e roomID with h | ⟨r, _, _, _, h⟩
  · rw [h]
    exact hx
  · rw [h]
    intro r1 x hmem
    rw [members_mapSet] at hmem
    simp only [mapGet_mapSet]
    by_cases hrr : r = r1
    · subst hrr
      simp only [if_true] at hmem
      rcases (mem_setAdd _ _ _).1 hmem with h1 | h1
      · have h2 := hx r x h1
        have hne : e ≠ x := by
          intro hex
          subst hex
          rw [hnew] at h2
          cases h2
        simp [hne, h2]
      · simp [h1]
    · simp only [hrr, if_false] at hmem
      have h2 := hx r1 x hmem
      have hne : e ≠ x := by
        intro hex
        subst hex
        rw [hnew] at h2
        cases h2
      simp [hne, h2]

theorem exclusive_disconnect (s : ServerState) (e : String) (hx : Exclusive s)
    (a : List (String × List String)) :
    Exclusive (disconnect ⟨s.rooms, s.socketToRoom, a⟩ e).1 := by
  have hx0 : Exclusive ⟨s.rooms, s.socketToRoom, a⟩ := hx
  generalize (⟨s.rooms, s.socketToRoom, a⟩ : ServerState) = s0 at hx0 ⊢
  cases hrec : mapGet s0.socketToRoom e with
  | none =>
    rw [disconnect_idle s0 e (Or.inl hrec)]
    exact hx0
  | some r =>
    by_cases hr : r = ""
    · subst hr
      rw [disconnect_idle s0 e (Or.inr hrec)]
      exact hx0
    · intro r1 x hmem
      rw [members_disconnect s0 e r r1 hrec hr] at hmem
      have hstr : (disconnect s0 e).1.socketToRoom = mapDelete s0.socketToRoom e := by
        rw [disconnect_recorded s0 e r hrec hr]
      rw [hstr, mapGet_mapDelete]
      by_cases hrr : r = r1
      · subst hrr
        simp only [if_true] at hmem
        obtain ⟨h1, h2⟩ := (mem_setDelete _ _ _).1 hmem
        have hne : e ≠ x := fun h => h2 h.symm
        simp [hne, hx0 r x h1]
      · simp only [hrr, if_false] at hmem
        have h2 := hx0 r1 x hmem
        have hne : e ≠ x := by
          intro hex
          subst hex
          rw [hrec] at h2
          exact hrr (Option.some.inj h2)
        simp [hne, h2]

theorem exclusive_step (s : ServerState) (ev : Event) (hx : Exclusive s)
    (hj : joinsOnce s [ev] = true) : Exclusive (step s ev).1 := by
  cases ev with
  | connection e => exact hx
  | joinRoom e roomID =>
    simp only [step]
    split
    · refine exclusive_joinRoom s e roomID hx ?_
      simp only [joinsOnce, Bool.and_true] at hj
      exact Option.isNone_iff_eq_none.1 hj
    · exact hx
  | sendingSignal e payload =>
    simp only [step]
    split
    · rw [sendingSignal_state]
      exact hx
    · exact hx
  | returningSignal e payload =>
    simp only [step]
    split
    · rw [returningSignal_state]
      exact hx
    · exact hx
  | change e payload =>
    simp only [step]
    split
    · rw [change_state]
      exact hx
    · exact hx
  | disconnect e =>
    simp only [step]
    split
    · exact exclusive_disconnect s e hx _
    · exact hx

theorem joinsOnce_cons (s : ServerState) (ev : Event) (rest : List Event)
    (h : joinsOnce s (ev :: rest) = true) :
    joinsOnce s [ev] = true ∧ joinsOnce (step s ev).1 rest = true := by
  simp only [joinsOnce, Bool.and_eq_true] at h ⊢
  exact ⟨⟨h.1, trivial⟩, h.2⟩

theorem exclusive_run (evs : List Event) (s : ServerState) (hx : Exclusive s)
    (hj : joinsOnce s evs = true) : Exclusive (run s evs) := by
  induction evs generalizing s with
  | nil => exact hx
  | cons ev rest ih =>
    obtain ⟨h1, h2⟩ := joinsOnce_cons s ev rest hj
    exact ih _ (exclusive_step s ev hx h1) h2

/-! ## socket.io rooms mirror the member sets -/

theorem mirrored_emptyState (ids : List String) : Mirrored ids emptyState :=
  ⟨by simp [members, emptyState, mapGet], by simp [emptyState], by simp [emptyState],
    by simp [members, emptyState, mapGet]⟩

theorem mem_keys_mapDelete {β : Type} (m : List (String × β)) (k x : String) :
    x ∈ (mapDelete m k).map Prod.fst ↔ x ∈ m.map Prod.fst ∧ x ≠ k := by
  simp only [List.mem_map, mem_mapDelete]
  constructor
  · rintro ⟨p, ⟨hp, hne⟩, rfl⟩
    exact ⟨⟨p, hp, rfl⟩, hne⟩
  · rintro ⟨⟨p, hp, rfl⟩, hne⟩
    exact ⟨p, ⟨hp, hne⟩, rfl⟩

theorem mem_keys_of_connected (s : ServerState) (e : String) (h : connected s e = true) :
    ∃ rs, mapGet s.sids e = some rs ∧ (e, rs) ∈ s.sids ∧ e ∈ s.sids.map Prod.fst := by
  unfold connected at h
  cases hget : mapGet s.sids e with
  | none => simp [hget] at h
  | some rs =>
    have hmem := mem_of_mapGet _ _ _ hget
    exact ⟨rs, rfl, hmem, List.mem_map.2 ⟨(e, rs), hmem, rfl⟩⟩

theorem disconnect_sids (s : ServerState) (e : String) :
    (disconnect s e).1.sids = s.sids := by
  unfold disconnect
  split
  · split <;> rfl
  · rfl

theorem mem_members_disconnect (s : ServerState) (e : String) (hs : Sound s)
    (hx : Exclusive s) (r1 x : String) :
    x ∈ members (disconnect s e).1 r1 ↔ (x ∈ members s r1 ∧ x ≠ e) := by
  have hidle : mapGet s.socketToRoom e = none ∨ mapGet s.socketToRoom e = some "" →
      (x ∈ members s r1 ↔ (x ∈ members s r1 ∧ x ≠ e)) := by
    intro h
    constructor
    · intro hmem
      refine ⟨hmem, ?_⟩
      intro hxe
      subst hxe
      have h1 := hx r1 x hmem
      rcases h with h | h
      · rw [h] at h1
        cases h1
      · exact hs.recorded x "" h rfl
    · exact fun h => h.1
  cases hrec : mapGet s.socketToRoom e with
  | none =>
    rw [disconnect_idle s e (Or.inl hrec)]
    exact hidle (Or.inl hrec)
  | some r =>
    by_cases hr : r = ""
    · subst hr
      rw [disconnect_idle s e (Or.inr hrec)]
      exact hidle (Or.inr hrec)
    · rw [members_disconnect s e r r1 hrec hr]
      by_cases hrr : r = r1
      · simp only [hrr, if_true]
        exact mem_setDelete _ _ _
      · simp only [hrr, if_false]
        constructor
        · intro hmem
          refine ⟨hmem, ?_⟩
          intro hxe
          subst hxe
          have h1 := hx r1 x hmem
          rw [hrec] at h1
          exact hrr (Option.some.inj h1)
        · exact fun h => h.1

theorem mirrored_connection (ids : List String) (s : ServerState) (e : String)
    (hm : Mirrored ids s) (ha : e ∈ ids) :
    Mirrored ids ⟨s.rooms, s.socketToRoom, adapterConnect s.sids e⟩ := by
  have hmem : ∀ r, members ⟨s.rooms, s.socketToRoom, adapterConnect s.sids e⟩ r
      = members s r := fun _ => rfl
  unfold adapterConnect
  cases hget : mapGet s.sids e with
  | some rs =>
    simp only [Option.isSome_some, if_true]
    exact ⟨hm.membersConnected, hm.adapter, hm.socketIds, hm.roomIds⟩
  | none =>
    simp only [Option.isSome_none, Bool.false_eq_true, if_false]
    have hnot : e ∉ s.sids.map Prod.fst := (mapGet_eq_none_iff _ _).1 hget
    refine ⟨?_, ?_, ?_, hm.roomIds⟩
    · intro r x hx
      have := hm.membersConnected r x hx
      simp only [List.map_append, List.mem_append]
      exact Or.inl this
    · intro q hq r
      rcases List.mem_append.1 hq with h1 | h1
      · exact hm.adapter q h1 r
      · simp only [List.mem_singleton] at h1
        subst h1
        have hno : e ∉ members s r := fun h => hnot (hm.membersConnected r e h)
        show r ∈ [e] ↔ (r = e ∨ e ∈ members s r)
        simp [hno]
    · intro q hq
      rcases List.mem_append.1 hq with h1 | h1
      · exact hm.socketIds q h1
      · simp only [List.mem_singleton] at h1
        subst h1
        exact ha

theorem mirrored_joinRoom (ids : List String) (s : ServerState) (e : String)
    (roomID : JSVal) (hs : Sound s) (hm : Mirrored ids s) (hc : connected s e = true)
    (ha : apart ids (.joinRoom e roomID)) : Mirrored ids (joinRoom s e roomID).1 := by
  rcases joinRoom_state s e roomID with h | ⟨r, hroom, _, _, h⟩
  · rw [h]
    exact hm
  · rw [h]
    subst hroom
    have har : r ∉ ids := ha
    obtain ⟨rs, hget, hers, hekey⟩ := mem_keys_of_connected s e hc
    have hkeys : (adapterJoin s.sids e r).map Prod.fst = s.sids.map Prod.fst := by
      unfold adapterJoin
      rw [keys_mapSet]
      simp [hekey]
    refine ⟨?_, ?_, ?_, ?_⟩
    · intro r1 x hx
      rw [members_mapSet] at hx
      show x ∈ (adapterJoin s.sids e r).map Prod.fst
      rw [hkeys]
      by_cases hrr : r = r1
      · simp only [hrr, if_true] at hx
        rcases (mem_setAdd _ _ _).1 hx with h1 | h1
        · exact hm.membersConnected r1 x (hrr ▸ h1)
        · exact h1 ▸ hekey
      · simp only [hrr, if_false] at hx
        exact hm.membersConnected r1 x hx
    · intro q hq r1
      rw [members_mapSet]
      have hq1 : q ∈ mapSet s.sids e (setAdd ((mapGet s.sids e).getD []) r) := hq
      rw [hget] at hq1
      simp only [Option.getD_some] at hq1
      rcases mem_mapSet_of_nodup _ _ _ _ hs.socketKeys hq1 with h1 | ⟨h1, h2⟩
      · subst h1
        have hold := hm.adapter (e, rs) hers r1
        simp only at hold ⊢
        rw [mem_setAdd, hold]
        by_cases hrr : r = r1
        · subst hrr
          simp [mem_setAdd]
        · have hrr1 : ¬ r1 = r := fun h => hrr h.symm
          simp [hrr, hrr1]
      · have hold := hm.adapter q h1 r1
        rw [hold]
        by_cases hrr : r = r1
        · subst hrr
          simp [mem_setAdd, h2]
        · simp [hrr]
    · intro q hq
      have hq1 : q.1 ∈ (adapterJoin s.sids e r).map Prod.fst := List.mem_map.2 ⟨q, hq, rfl⟩
      rw [hkeys] at hq1
      obtain ⟨q1, hq1mem, hq1eq⟩ := List.mem_map.1 hq1
      rw [← hq1eq]
      exact hm.socketIds q1 hq1mem
    · intro r1 x hx
      rw [members_mapSet] at hx
      by_cases hrr : r = r1
      · exact hrr ▸ har
      · simp only [hrr, if_false] at hx
        exact hm.roomIds r1 x hx

theorem mirrored_disconnect (ids : List String) (s : ServerState) (e : String)
    (hs : Sound s) (hx : Exclusive s) (hm : Mirrored ids s) :
    Mirrored ids (disconnect ⟨s.rooms, s.socketToRoom, mapDelete s.sids e⟩ e).1 := by
  have hs0 : Sound ⟨s.rooms, s.socketToRoom, mapDelete s.sids e⟩ :=
    ⟨hs.roomKeys, hs.memberSets, hs.capacity, hs.recorded,
      nodup_keys_mapDelete _ _ hs.socketKeys⟩
  have hx0 : Exclusive ⟨s.rooms, s.socketToRoom, mapDelete s.sids e⟩ := hx
  have hmem := mem_members_disconnect ⟨s.rooms, s.socketToRoom, mapDelete s.sids e⟩ e
    hs0 hx0
  have hold : ∀ r, members ⟨s.rooms, s.socketToRoom, mapDelete s.sids e⟩ r = members s r :=
    fun _ => rfl
  simp only [hold] at hmem
  refine ⟨?_, ?_, ?_, ?_⟩
  · intro r x hxm
    rw [disconnect_sids]
    obtain ⟨h1, h2⟩ := (hmem r x).1 hxm
    exact (mem_keys_mapDelete _ _ _).2 ⟨hm.membersConnected r x h1, h2⟩
  · intro q hq r
    rw [disconnect_sids] at hq
    obtain ⟨h1, h2⟩ := (mem_mapDelete _ _ _).1 hq
    rw [hm.adapter q h1 r, hmem]
    simp [h2]
  · intro q hq
    rw [disconnect_sids] at hq
    exact hm.socketIds q ((mem_mapDelete _ _ _).1 hq).1
  · intro r x hxm
    exact hm.roomIds r x ((hmem r x).1 hxm).1

theorem mirrored_step (ids : List String) (s : ServerState) (ev : Event) (hs : Sound s)
    (hx : Exclusive s) (hm : Mirrored ids s) (ha : apart ids ev) :
    Mirrored ids (step s ev).1 := by
  cases ev with
  | connection e => exact mirrored_connection ids s e hm ha
  | joinRoom e roomID =>
    simp only [step]
    split
    · rename_i hc
      exact mirrored_joinRoom ids s e roomID hs hm hc ha
    · exact hm
  | sendingSignal e payload =>
    simp only [step]
    split
    · rw [sendingSignal_state]
      exact hm
    · exact hm
  | returningSignal e payload =>
    simp only [step]
    split
    · rw [returningSignal_state]
      exact hm
    · exact hm
  | change e payload =>
    simp only [step]
    split
    · rw [change_state]
      exact hm
    · exact hm
  | disconnect e =>
    simp only [step]
    split
    · exact mirrored_disconnect ids s e hs hx hm
    · exact hm

theorem mirrored_run (ids : List String) (evs : List Event) (s : ServerState)
    (hs : Sound s) (hx : Exclusive s) (hm : Mirrored ids s)
    (hj : joinsOnce s evs = true) (ha : ∀ ev ∈ evs, apart ids ev) :
    Mirrored ids (run s evs) := by
  induction evs generalizing s with
  | nil => exact hm
  | cons ev rest ih =>
    obtain ⟨h1, h2⟩ := joinsOnce_cons s ev rest hj
    exact ih _ (sound_step s ev hs) (exclusive_step s ev hx h1)
      (mirrored_step ids s ev hs hx hm (ha ev (List.mem_cons_self _ _))) h2
      (fun ev1 h => ha ev1 (List.mem_cons_of_mem _ h))

theorem apart_of_separate (ids : List String) (evs : List Event)
    (hsub : ∀ x ∈ endpointIds evs, x ∈ ids) (hrooms : ∀ r ∈ requestedRooms evs, r ∉ ids) :
    ∀ ev ∈ evs, apart ids ev := by
  induction evs with
  | nil => simp
  | cons ev rest ih =>
    intro ev1 hev1
    rcases List.mem_cons.1 hev1 with h | h
    · subst h
      cases ev1 with
      | connection e => exact hsub e (by simp [endpointIds])
      | joinRoom e roomID =>
        cases roomID with
        | str r => exact hrooms r (by simp [requestedRooms])
        | _ => trivial
      | _ => trivial
    · refine ih ?_ ?_ ev1 h
      · intro x hx
        refine hsub x ?_
        cases ev with
        | connection e => simp [endpointIds, hx]
        | _ => simpa [endpointIds] using hx
      · intro r hr
        refine hrooms r ?_
        cases ev with
        | joinRoom e roomID =>
          cases roomID with
          | str r1 => simp [requestedRooms, hr]
          | _ => simpa [requestedRooms] using hr
        | _ => simpa [requestedRooms] using hr

theorem filter_setAdd (s : List String) (x : String) :
    (setAdd s x).filter (fun y => decide (y ≠ x)) = s.filter (fun y => decide (y ≠ x)) := by
  unfold setAdd
  by_cases h : x ∈ s
  · simp [h]
  · simp [h, List.filter_append]

theorem truthy_of_getProp (payload : JSVal) (name : String)
    (h : (payload.getProp name).truthy = true) : payload.truthy = true := by
  cases payload <;> simp_all [JSVal.getProp, JSVal.truthy]

/-! ## The peers map of the client -/

theorem keys_onAllUsers (users stream : List String) (c : ClientState)
    (hfresh : ∀ u ∈ users, u ∉ c.peers.map Prod.fst) (hd : users.Nodup) :
    (onAllUsers c users stream).peers.map Prod.fst = c.peers.map Prod.fst ++ users := by
  induction users generalizing c with
  | nil => simp [onAllUsers]
  | cons u rest ih =>
    have hu : u ∉ c.peers.map Prod.fst := hfresh u (List.mem_cons_self _ _)
    have hstep : (onAllUsers c (u :: rest) stream)
        = onAllUsers (createOfferForUser c u stream).1 rest stream := rfl
    have hk1 : (createOfferForUser c u stream).1.peers.map Prod.fst
        = c.peers.map Prod.fst ++ [u] := by
      simp only [createOfferForUser, keys_mapSet, hu, if_false]
    rw [hstep, ih _ ?_ (List.nodup_cons.1 hd).2, hk1]
    · simp
    · intro x hx
      rw [hk1]
      simp only [List.mem_append, List.mem_singleton, not_or]
      refine ⟨hfresh x (List.mem_cons_of_mem _ hx), ?_⟩
      intro hxu
      exact (List.nodup_cons.1 hd).1 (hxu ▸ hx)

theorem linked_createOfferForUser (c : ClientState) (u : String) (stream : List String)
    (h : Linked c) : Linked (createOfferForUser c u stream).1 := by
  intro u1 pc hget
  simp only [createOfferForUser, mapGet_mapSet] at hget ⊢
  by_cases huu : u = u1
  · simp only [huu, if_true, Option.some.injEq] at hget
    subst hget
    exact ⟨_, List.getElem?_concat_length _ _, huu⟩
  · simp only [huu, if_false] at hget
    obtain ⟨conn, h1, h2⟩ := h u1 pc hget
    have hlt : pc < c.heap.length := by
      by_contra hge
      rw [List.getElem?_eq_none (by omega)] at h1
      cases h1
    exact ⟨conn, by rw [List.getElem?_append_left hlt, h1], h2⟩

theorem linked_onAllUsers (users stream : List String) (c : ClientState) (h : Linked c) :
    Linked (onAllUsers c users stream) := by
  induction users generalizing c with
  | nil => exact h
  | cons u rest ih => exact ih _ (linked_createOfferForUser c u stream h)

theorem rooms_of_member_unique (s : ServerState) (hs : Sound s) (hx : Exclusive s)
    (e : String) (p q : String × List String) (hp : p ∈ s.rooms) (hq : q ∈ s.rooms)
    (hep : e ∈ p.2) (heq : e ∈ q.2) : p = q := by
  have h1 := members_eq_of_mem s hs p hp
  have h2 := members_eq_of_mem s hs q hq
  have h3 := hx p.1 e (h1 ▸ hep)
  have h4 := hx q.1 e (h2 ▸ heq)
  rw [h3] at h4
  have hkey : p.1 = q.1 := Option.some.inj h4
  have hval : p.2 = q.2 := by rw [← h1, ← h2, hkey]
  exact Prod.ext hkey hval

/-! ## Who is in the socket.io room named by a socket id -/

theorem ownRooms_emptyState (ids : List String) : OwnRooms ids emptyState :=
  ⟨by simp [emptyState], by simp [emptyState]⟩

theorem ownRooms_step (ids : List String) (s : ServerState) (ev : Event)
    (ho : OwnRooms ids s) (ha : apart ids ev) : OwnRooms ids (step s ev).1 := by
  cases ev with
  | connection e =>
    simp only [step, adapterConnect]
    split
    · exact ho
    · refine ⟨?_, ?_⟩
      · intro q hq
        rcases List.mem_append.1 hq with h1 | h1
        · exact ho.own q h1
        · simp only [List.mem_singleton] at h1
          subst h1
          simp
      · intro q hq r hr
        rcases List.mem_append.1 hq with h1 | h1
        · exact ho.others q h1 r hr
        · simp only [List.mem_singleton] at h1
          subst h1
          simp only [List.mem_singleton] at hr
          exact Or.inl hr
  | joinRoom e roomID =>
    simp only [step]
    split
    · rename_i hc
      rcases joinRoom_state s e roomID with h | ⟨r, hroom, _, _, h⟩
      · rw [h]
        exact ho
      · rw [h]
        subst hroom
        have har : r ∉ ids := ha
        obtain ⟨rs, hget, hers, _⟩ := mem_keys_of_connected s e hc
        have hmem : ∀ q ∈ adapterJoin s.sids e r, q = (e, setAdd rs r) ∨ q ∈ s.sids := by
          intro q hq
          unfold adapterJoin at hq
          rw [hget] at hq
          exact mem_mapSet_weak _ _ _ _ hq
        refine ⟨?_, ?_⟩
        · intro q hq
          rcases hmem q hq with h1 | h1
          · subst h1
            exact (mem_setAdd _ _ _).2 (Or.inl (ho.own (e, rs) hers))
          · exact ho.own q h1
        · intro q hq r1 hr1
          rcases hmem q hq with h1 | h1
          · subst h1
            rcases (mem_setAdd _ _ _).1 hr1 with h2 | h2
            · exact ho.others (e, rs) hers r1 h2
            · exact Or.inr (h2 ▸ har)
          · exact ho.others q h1 r1 hr1
    · exact ho
  | sendingSignal e payload =>
    simp only [step]
    split
    · rw [sendingSignal_state]
      exact ho
    · exact ho
  | returningSignal e payload =>
    simp only [step]
    split
    · rw [returningSignal_state]
      exact ho
    · exact ho
  | change e payload =>
    simp only [step]
    split
    · rw [change_state]
      exact ho
    · exact ho
  | disconnect e =>
    simp only [step]
    split
    · refine ⟨?_, ?_⟩
      · intro q hq
        rw [disconnect_sids] at hq
        exact ho.own q ((mem_mapDelete _ _ _).1 hq).1
      · intro q hq r hr
        rw [disconnect_sids] at hq
        exact ho.others q ((mem_mapDelete _ _ _).1 hq).1 r hr
    · exact ho

theorem ownRooms_run (ids : List String) (evs : List Event) (s : ServerState)
    (ho : OwnRooms ids s) (ha : ∀ ev ∈ evs, apart ids ev) : OwnRooms ids (run s evs) := by
  induction evs generalizing s with
  | nil => exact ho
  | cons ev rest ih =>
    exact ih _ (ownRooms_step ids s ev ho (ha ev (List.mem_cons_self _ _)))
      (fun ev1 h => ha ev1 (List.mem_cons_of_mem _ h))

theorem eq_singleton_or_nil (l : List String) (t : String) (hnd : l.Nodup)
    (hall : ∀ x ∈ l, x = t) : l = if t ∈ l then [t] else [] := by
  match l, hnd, hall with
  | [], _, _ => simp
  | [a], _, hall =>
    have ha : a = t := hall a (by simp)
    subst ha
    simp
  | a :: b :: rest, hnd, hall =>
    have ha : a = t := hall a (by simp)
    have hb : b = t := hall b (by simp)
    subst ha
    subst hb
    simp at hnd

theorem roomSockets_of_socket_id (ids : List String) (s : ServerState) (t : String)
    (hs : Sound s) (ho : OwnRooms ids s) (ht : t ∈ ids) :
    roomSockets s.sids t = if connected s t = true then [t] else [] := by
  have hnd : (roomSockets s.sids t).Nodup := by
    unfold roomSockets
    exact List.Nodup.sublist (List.Sublist.map _ (List.filter_sublist _)) hs.socketKeys
  have hall : ∀ x ∈ roomSockets s.sids t, x = t := by
    intro x hx
    unfold roomSockets at hx
    simp only [List.mem_map, List.mem_filter, decide_eq_true_eq] at hx
    obtain ⟨q, ⟨hq, htq⟩, rfl⟩ := hx
    rcases ho.others q hq t htq with h1 | h1
    · exact h1.symm
    · exact absurd ht h1
  rw [eq_singleton_or_nil _ t hnd hall]
  have hiff : t ∈ roomSockets s.sids t ↔ connected s t = true := by
    constructor
    · intro hx
      unfold roomSockets at hx
      simp only [List.mem_map, List.mem_filter, decide_eq_true_eq] at hx
      obtain ⟨q, ⟨hq, _⟩, hqt⟩ := hx
      unfold connected
      cases hget : mapGet s.sids t with
      | none =>
        exact absurd (List.mem_map.2 ⟨q, hq, hqt⟩) ((mapGet_eq_none_iff _ _).1 hget)
      | some rs => rfl
    · intro hc
      obtain ⟨rs, _, hers, _⟩ := mem_keys_of_connected s t hc
      unfold roomSockets
      simp only [List.mem_map, List.mem_filter, decide_eq_true_eq]
      exact ⟨(t, rs), ⟨hers, ho.own (t, rs) hers⟩, rfl⟩
  by_cases hc : connected s t = true
  · simp [hc, hiff.2 hc]
  · have hn : t ∉ roomSockets s.sids t := fun h => hc (hiff.1 h)
    simp [hc, hn]

/-! ## Member lists are in joining order -/

theorem run_append (s : ServerState) (evs : List Event) (ev : Event) :
    run s (evs ++ [ev]) = (step (run s evs) ev).1 := by
  induction evs generalizing s with
  | nil => rfl
  | cons a rest ih => exact ih _

theorem joinTimeFrom_append (r x : String) (evs : List Event) (ev : Event)
    (s : ServerState) (k : Nat) (acc : Option Nat) :
    joinTimeFrom r x s k acc (evs ++ [ev])
      = if x ∉ members (run s evs) r ∧ x ∈ members (step (run s evs) ev).1 r
        then some (k + evs.length) else joinTimeFrom r x s k acc evs := by
  induction evs generalizing s k acc with
  | nil => simp [joinTimeFrom, run]
  | cons a rest ih =>
    show joinTimeFrom r x (step s a).1 (k + 1)
        (if x ∉ members s r ∧ x ∈ members (step s a).1 r then some k else acc)
        (rest ++ [ev]) = _
    rw [ih]
    have hk : k + 1 + rest.length = k + (a :: rest).length := by
      simp only [List.length_cons]
      omega
    rw [hk]
    rfl

theorem joinTime_append (evs : List Event) (ev : Event) (r x : String) :
    joinTime (evs ++ [ev]) r x
      = if x ∉ members (run emptyState evs) r ∧
            x ∈ members (step (run emptyState evs) ev).1 r
        then some evs.length else joinTime evs r x := by
  unfold joinTime
  rw [joinTimeFrom_append]
  simp

/-- One event changes the member list of a room in one of three ways: not at all, by
the accepted join of a newcomer, who goes last, or by taking one socket out. -/
theorem members_step (s : ServerState) (ev : Event) (r : String) :
    members (step s ev).1 r = members s r ∨
      (∃ e, ev = .joinRoom e (.str r) ∧ e ∉ members s r ∧
        members (step s ev).1 r = members s r ++ [e]) ∨
      (∃ e, members (step s ev).1 r = setDelete (members s r) e) := by
  cases ev with
  | connection e => exact Or.inl rfl
  | joinRoom e roomID =>
    simp only [step]
    split
    · rcases joinRoom_state s e roomID with h | ⟨r0, hroom, _, _, h⟩
      · rw [h]
        exact Or.inl rfl
      · rw [h, members_mapSet]
        subst hroom
        by_cases hrr : r0 = r
        · subst hrr
          simp only [if_true]
          by_cases hmem : e ∈ members s r0
          · left
            simp [setAdd, hmem]
          · right
            left
            exact ⟨e, rfl, hmem, by simp [setAdd, hmem]⟩
        · left
          simp [hrr]
    · exact Or.inl rfl
  | sendingSignal e payload =>
    simp only [step]
    split
    · rw [sendingSignal_state]
      exact Or.inl rfl
    · exact Or.inl rfl
  | returningSignal e payload =>
    simp only [step]
    split
    · rw [returningSignal_state]
      exact Or.inl rfl
    · exact Or.inl rfl
  | change e payload =>
    simp only [step]
    split
    · rw [change_state]
      exact Or.inl rfl
    · exact Or.inl rfl
  | disconnect e =>
    simp only [step]
    split
    · cases hrec : mapGet s.socketToRoom e with
      | none =>
        have hrec0 : mapGet (ServerState.mk s.rooms s.socketToRoom
            (mapDelete s.sids e)).socketToRoom e = none := hrec
        rw [disconnect_idle _ e (Or.inl hrec0)]
        exact Or.inl rfl
      | some r0 =>
        by_cases hr : r0 = ""
        · subst hr
          have hrec0 : mapGet (ServerState.mk s.rooms s.socketToRoom
              (mapDelete s.sids e)).socketToRoom e = some "" := hrec
          rw [disconnect_idle _ e (Or.inr hrec0)]
          exact Or.inl rfl
        · have hrec0 : mapGet (ServerState.mk s.rooms s.socketToRoom
              (mapDelete s.sids e)).socketToRoom e = some r0 := hrec
          rw [members_disconnect _ e r0 r hrec0 hr]
          by_cases hrr : r0 = r
          · right
            right
            exact ⟨e, by simp [hrr]; rfl⟩
          · left
            simp [hrr]
            rfl
    · exact Or.inl rfl

theorem joinTime_of_member (evs : List Event) (r x : String)
    (h : x ∈ members (run emptyState evs) r) :
    ∃ i, i < evs.length ∧ joinTime evs r x = some i ∧
      evs[i]? = some (.joinRoom x (.str r)) := by
  induction evs using List.reverseRecOn with
  | nil => simp [run, members, emptyState, mapGet] at h
  | append_singleton rest ev ih =>
    rw [run_append] at h
    rw [joinTime_append]
    by_cases hold : x ∈ members (run emptyState rest) r
    · obtain ⟨i, hi, ht, hev⟩ := ih hold
      refine ⟨i, by simp; omega, ?_, ?_⟩
      · simp [hold, ht]
      · rw [List.getElem?_append_left hi, hev]
    · refine ⟨rest.length, by simp, by simp [hold, h], ?_⟩
      rw [List.getElem?_concat_length]
      rcases members_step (run emptyState rest) ev r with h1 | ⟨e, hev, _, h1⟩ | ⟨e, h1⟩
      · rw [h1] at h
        exact absurd h hold
      · rw [h1] at h
        rcases List.mem_append.1 h with h2 | h2
        · exact absurd h2 hold
        · simp only [List.mem_singleton] at h2
          rw [hev, h2]
      · rw [h1] at h
        exact absurd ((mem_setDelete _ _ _).1 h).1 hold

/-- If `x` comes before `y` in the member list of room `r` after a sequence of events,
then the 'join room' by which `x` last entered `r` comes before that of `y`. -/
theorem members_in_join_order (evs : List Event) (r x y : String)
    (h : [x, y].Sublist (members (run emptyState evs) r)) :
    ∃ i j, i < j ∧ joinTime evs r x = some i ∧ joinTime evs r y = some j ∧
      evs[i]? = some (.joinRoom x (.str r)) ∧ evs[j]? = some (.joinRoom y (.str r)) := by
  induction evs using List.reverseRecOn with
  | nil => simp [run, members, emptyState, mapGet] at h
  | append_singleton rest ev ih =>
    rw [run_append] at h
    have hkeep : [x, y].Sublist (members (run emptyState rest) r) →
        ∃ i j, i < j ∧ joinTime (rest ++ [ev]) r x = some i ∧
          joinTime (rest ++ [ev]) r y = some j ∧
          (rest ++ [ev])[i]? = some (.joinRoom x (.str r)) ∧
          (rest ++ [ev])[j]? = some (.joinRoom y (.str r)) := by
      intro hsub
      have hx : x ∈ members (run emptyState rest) r := hsub.subset (by simp)
      have hy : y ∈ members (run emptyState rest) r := hsub.subset (by simp)
      obtain ⟨i, j, hij, hti, htj, hei, hej⟩ := ih hsub
      have hj : j < rest.length := by
        by_contra hge
        rw [List.getElem?_eq_none (by omega)] at hej
        cases hej
      have hi : i < rest.length := by omega
      refine ⟨i, j, hij, ?_, ?_, ?_, ?_⟩
      · rw [joinTime_append]
        simp [hx, hti]
      · rw [joinTime_append]
        simp [hy, htj]
      · rw [List.getElem?_append_left hi, hei]
      · rw [List.getElem?_append_left hj, hej]
    rcases members_step (run emptyState rest) ev r with h1 | ⟨e, hev, hnew, h1⟩ | ⟨e, h1⟩
    · rw [h1] at h
      exact hkeep h
    · rw [h1] at h
      obtain ⟨l1, l2, hsplit, hl1, hl2⟩ := List.sublist_append_iff.1 h
      have hlen2 : l2.length ≤ 1 := by
        have := hl2.length_le
        simpa using this
      match l2, hl2, hlen2, hsplit with
      | [], _, _, hsplit =>
        simp only [List.append_nil] at hsplit
        exact hkeep (hsplit ▸ hl1)
      | [b], hl2, _, hsplit =>
        have hb : b = e := by simpa using hl2.subset (List.mem_singleton_self b)
        subst hb
        have hl1eq : l1 = [x] ∧ b = y := by
          match l1, hsplit with
          | [a], hsplit =>
            simp only [List.singleton_append, List.cons.injEq, and_true] at hsplit
            exact ⟨by rw [hsplit.1], hsplit.2.symm⟩
          | [], hsplit => simp at hsplit
          | _ :: _ :: _, hsplit => simp at hsplit
        obtain ⟨hl1x, hby⟩ := hl1eq
        subst hby
        subst hl1x
        have hx : x ∈ members (run emptyState rest) r := hl1.subset (by simp)
        obtain ⟨i, hi, hti, hei⟩ := joinTime_of_member rest r x hx
        have hb2 : b ∈ members (step (run emptyState rest) ev).1 r := by
          rw [h1]
          simp
        refine ⟨i, rest.length, hi, ?_, ?_, ?_, ?_⟩
        · rw [joinTime_append]
          simp [hx, hti]
        · rw [joinTime_append]
          simp [hnew, hb2]
        · rw [List.getElem?_append_left hi, hei]
        · rw [List.getElem?_concat_length, hev]
      | _ :: _ :: _, _, hlen2, _ => simp at hlen2
    · rw [h1] at h
      have hsub : (setDelete (members (run emptyState rest) r) e).Sublist
          (members (run emptyState rest) r) := by
        unfold setDelete
        exact List.filter_sublist _
      exact hkeep (h.trans hsub)

/-! ## Theorems -/

/-- C1: after any sequence of events from the empty state every member set in `rooms`
has at most 4 elements, and a 'join room' event that is answered with 'room full' leaves
the whole state, so also the member set of the requested room, exactly as it was. -/
theorem capacity_never_exceeded (evs : List Event) :
    (∀ p ∈ (run emptyState evs).rooms, p.2.length ≤ 4) ∧
      ∀ (e : String) (roomID : JSVal),
        (∃ m ∈ (step (run emptyState evs) (.joinRoom e roomID)).2, m.event = "room full") →
          (step (run emptyState evs) (.joinRoom e roomID)).1 = run emptyState evs := by
  refine ⟨(sound_run evs emptyState sound_emptyState).capacity, ?_⟩
  intro e roomID hfull
  simp only [step] at hfull ⊢
  split
  · rename_i hc
    simp only [hc, if_true] at hfull
    rcases joinRoom_state (run emptyState evs) e roomID with h | ⟨r, hroom, hr, hlt, _⟩
    · exact h
    · subst hroom
      rw [joinRoom_accept _ e r hr hlt] at hfull
      obtain ⟨m, hm, hev⟩ := hfull
      simp only [List.mem_singleton] at hm
      subst hm
      have hne : ("all users" : String) ≠ "room full" := by decide
      exact absurd hev hne
  · rfl

/-- Witness of C1: with X, Y, Z, W in room "abc", the join of V is answered with
'room full' and changes nothing. -/
theorem capacity_never_exceeded_witness :
    (∃ m ∈ (step (run emptyState fourJoined) (.joinRoom "V" (.str "abc"))).2,
        m.event = "room full") ∧
      (step (run emptyState fourJoined) (.joinRoom "V" (.str "abc"))).1
        = run emptyState fourJoined :=
  ⟨by decide, (capacity_never_exceeded fourJoined).2 "V" (.str "abc") (by decide)⟩

/-- C2: in a reachable state, an accepted 'join room' of an endpoint `e` that is not yet
a member of room `r` emits exactly one message, 'all users' addressed to `e`, whose
payload is the member list `r` had before the join: no member twice, `e` not in it, and
in the order they joined, that is, whenever `x` comes before `y` in that list, the
'join room' event by which `x` entered `r` comes before that of `y` in the sequence of
events. The join itself puts `e` last. -/
theorem join_roster (evs : List Event) (e r : String) (hr : r ≠ "")
    (hroom : (members (run emptyState evs) r).length < 4)
    (hnew : e ∉ members (run emptyState evs) r) :
    (joinRoom (run emptyState evs) e (.str r)).2
        = [⟨.socket e, "all users",
            [.arr ((members (run emptyState evs) r).map JSVal.str)]⟩] ∧
      (members (run emptyState evs) r).Nodup ∧
      members (joinRoom (run emptyState evs) e (.str r)).1 r
        = members (run emptyState evs) r ++ [e] ∧
      ∀ x y, [x, y].Sublist (members (run emptyState evs) r) →
        ∃ i j, i < j ∧ joinTime evs r x = some i ∧ joinTime evs r y = some j ∧
          evs[i]? = some (.joinRoom x (.str r)) ∧
          evs[j]? = some (.joinRoom y (.str r)) := by
  rw [joinRoom_accept _ e r hr hroom]
  refine ⟨?_, members_nodup _ (sound_run evs emptyState sound_emptyState) r, ?_,
    fun x y h => members_in_join_order evs r x y h⟩
  · simp only [filter_setAdd, filter_ne_of_not_mem _ _ hnew]
  · rw [members_mapSet]
    simp [setAdd, hnew]

/-- Witness of C2: joining the room whose members are A, B, C yields the roster
[A, B, C]; and after X, Y, Z joined and Y left, X is listed before Z and joined before
Z. -/
theorem join_roster_witness :
    (joinRoom (run emptyState threeJoined) "D" (.str "abc")).2
        = [⟨.socket "D", "all users", [.arr [.str "A", .str "B", .str "C"]]⟩] ∧
      (joinRoom (run emptyState oneLeft) "V" (.str "abc")).2
        = [⟨.socket "V", "all users", [.arr [.str "X", .str "Z"]]⟩] ∧
      ∃ i j, i < j ∧ joinTime oneLeft "abc" "X" = some i ∧
        joinTime oneLeft "abc" "Z" = some j ∧
        oneLeft[i]? = some (.joinRoom "X" (.str "abc")) ∧
        oneLeft[j]? = some (.joinRoom "Z" (.str "abc")) :=
  ⟨(join_roster threeJoined "D" "abc" (by decide) (by decide) (by decide)).1,
    (join_roster oneLeft "V" "abc" (by decide) (by decide) (by decide)).1,
    (join_roster oneLeft "V" "abc" (by decide) (by decide) (by decide)).2.2.2 "X" "Z"
      (by decide)⟩

/-- C3, as stated, fails: socket E is accepted into room "a" and then into room "b";
after its 'disconnect' the member set of "a" still lists E. -/
theorem disconnect_leaves_stale_member :
    "E" ∈ members (run emptyState joinedTwice) "a" ∧
      "E" ∈ members (run emptyState joinedTwice) "b" ∧
      ∃ p ∈ (step (run emptyState joinedTwice) (.disconnect "E")).1.rooms, "E" ∈ p.2 := by
  decide

/-- C3, amended: take a sequence of events in which no endpoint sends 'join room' while
it is recorded in a room and no room is named like a socket id. If `e` is a member of room
`r` in the state reached, then after the 'disconnect' of `e`: no member set contains `e`;
the relay has emitted exactly one message, 'user left' carrying `e`, broadcast to room `r`
with `e` excepted; the sockets that receive it are exactly the members of `r` other than
`e`, each once; the member set of `r` is the former one without `e`; and if `e` was the
only member, `r` is no longer a key of `rooms`. -/
theorem user_left_notifies_room (evs : List Event) (e r : String)
    (hj : joinsOnce emptyState evs = true)
    (hsep : ∀ x ∈ requestedRooms evs, x ∉ endpointIds evs)
    (hmem : e ∈ members (run emptyState evs) r) :
    (∀ p ∈ (step (run emptyState evs) (.disconnect e)).1.rooms, e ∉ p.2) ∧
      (step (run emptyState evs) (.disconnect e)).2
        = [⟨.socketTo e r, "user left", [.str e]⟩] ∧
      (∀ x, x ∈ broadcastRecipients (step (run emptyState evs) (.disconnect e)).1.sids e r
        ↔ (x ∈ members (run emptyState evs) r ∧ x ≠ e)) ∧
      (broadcastRecipients (step (run emptyState evs) (.disconnect e)).1.sids e r).Nodup ∧
      members (step (run emptyState evs) (.disconnect e)).1 r
        = setDelete (members (run emptyState evs) r) e ∧
      ((∀ x ∈ members (run emptyState evs) r, x = e) →
        r ∉ (step (run emptyState evs) (.disconnect e)).1.rooms.map Prod.fst) := by
  have hs := sound_run evs emptyState sound_emptyState
  have hx := exclusive_run evs emptyState exclusive_emptyState hj
  have ha := apart_of_separate (endpointIds evs) evs (fun _ h => h) hsep
  have hm := mirrored_run (endpointIds evs) evs emptyState sound_emptyState
    exclusive_emptyState (mirrored_emptyState _) hj ha
  have hs1 := sound_step _ (.disconnect e) hs
  have hm1 := mirrored_step (endpointIds evs) _ (.disconnect e) hs hx hm trivial
  generalize run emptyState evs = s at hs hx hm hs1 hm1 hmem ⊢
  have hrec : mapGet s.socketToRoom e = some r := hx r e hmem
  have hr : r ≠ "" := hs.recorded e r hrec
  have hekey : e ∈ s.sids.map Prod.fst := hm.membersConnected r e hmem
  have hc : connected s e = true := by
    unfold connected
    cases hget : mapGet s.sids e with
    | none => exact absurd hekey ((mapGet_eq_none_iff _ _).1 hget)
    | some rs => rfl
  have hstep : step s (.disconnect e)
      = disconnect ⟨s.rooms, s.socketToRoom, mapDelete s.sids e⟩ e := by
    simp [step, hc]
  have hs0 : Sound ⟨s.rooms, s.socketToRoom, mapDelete s.sids e⟩ :=
    ⟨hs.roomKeys, hs.memberSets, hs.capacity, hs.recorded,
      nodup_keys_mapDelete _ _ hs.socketKeys⟩
  have hx0 : Exclusive ⟨s.rooms, s.socketToRoom, mapDelete s.sids e⟩ := hx
  have hafter : ∀ r1 x, x ∈ members (step s (.disconnect e)).1 r1
      ↔ (x ∈ members s r1 ∧ x ≠ e) := by
    intro r1 x
    rw [hstep]
    exact mem_members_disconnect _ e hs0 hx0 r1 x
  have hrec0 : mapGet (ServerState.mk s.rooms s.socketToRoom
      (mapDelete s.sids e)).socketToRoom e = some r := hrec
  have hsids : (step s (.disconnect e)).1.sids = mapDelete s.sids e := by
    rw [hstep, disconnect_sids]
  have hrids : r ∉ endpointIds evs := hm.roomIds r e hmem
  have heids : e ∈ endpointIds evs := by
    obtain ⟨q, hq, hqe⟩ := List.mem_map.1 hekey
    exact hqe ▸ hm.socketIds q hq
  refine ⟨?_, ?_, ?_, ?_, ?_, ?_⟩
  · intro p hp hep
    have h1 := members_eq_of_mem _ hs1 p hp
    rw [← h1] at hep
    exact ((hafter p.1 e).1 hep).2 rfl
  · rw [hstep, disconnect_recorded _ e r hrec0 hr]
  · intro x
    rw [← hafter r x]
    unfold broadcastRecipients roomSockets
    simp only [List.mem_filter, List.mem_map, decide_eq_true_eq]
    constructor
    · rintro ⟨⟨q, ⟨hq, hrq⟩, rfl⟩, _⟩
      rcases (hm1.adapter q hq r).1 hrq with h1 | h1
      · exact absurd (h1 ▸ hm1.socketIds q hq) hrids
      · exact h1
    · intro hxm
      obtain ⟨q, hq, hqx⟩ := List.mem_map.1 (hm1.membersConnected r x hxm)
      subst hqx
      refine ⟨⟨q, ⟨hq, (hm1.adapter q hq r).2 (Or.inr hxm)⟩, rfl⟩, ?_⟩
      rintro ⟨q1, ⟨hq1, heq1⟩, _⟩
      rcases (hm1.adapter q1 hq1 e).1 heq1 with h1 | h1
      · have h2 : q1.1 ∈ (step s (.disconnect e)).1.sids.map Prod.fst :=
          List.mem_map.2 ⟨q1, hq1, rfl⟩
        rw [hsids] at h2
        exact ((mem_keys_mapDelete _ _ _).1 h2).2 h1.symm
      · exact hm1.roomIds e q1.1 h1 heids
  · unfold broadcastRecipients roomSockets
    refine List.Nodup.filter _ ?_
    exact List.Nodup.sublist (List.Sublist.map _ (List.filter_sublist _)) hs1.socketKeys
  · rw [hstep, members_disconnect _ e r r hrec0 hr]
    simp only [if_true]
    rfl
  · intro hlast
    obtain ⟨set, _, hset, hset2⟩ := members_of_mem s r e hmem
    have hempty : (setDelete set e).length = 0 := by
      rw [List.length_eq_zero]
      apply List.eq_nil_iff_forall_not_mem.2
      intro y hy
      obtain ⟨h1, h2⟩ := (mem_setDelete _ _ _).1 hy
      exact h2 (hlast y (hset2 ▸ h1))
    rw [hstep, disconnect_recorded _ e r hrec0 hr]
    simp only [hset, hempty, if_true]
    intro hkey
    exact ((mem_keys_mapDelete _ _ _).1 hkey).2 rfl

/-- Witness of C3 amended: X, Y, Z, W join "abc", then Y disconnects: 'user left' with Y
goes to X, Z, W only, and "abc" lists X, Z, W. -/
theorem user_left_notifies_room_witness :
    (broadcastRecipients (step (run emptyState fourJoined) (.disconnect "Y")).1.sids
        "Y" "abc" = ["X", "Z", "W"] ∧
      members (step (run emptyState fourJoined) (.disconnect "Y")).1 "abc"
        = ["X", "Z", "W"]) ∧
      (step (run emptyState fourJoined) (.disconnect "Y")).2
        = [⟨.socketTo "Y" "abc", "user left", [.str "Y"]⟩] :=
  ⟨by decide,
    (user_left_notifies_room fourJoined "Y" "abc" (by decide) (by decide) (by decide)).2.1⟩

/-- Why the amended C3 asks for room names that are no socket ids: Y joins a room named
"X" while socket X is connected; socket.io has X in the room of its own id, so the
'user left' of Y reaches X, which is in no member set. -/
theorem room_named_like_socket :
    (run emptyState [.connection "X", .connection "Y", .joinRoom "Y" (.str "X")]).rooms
        = [("X", ["Y"])] ∧
      broadcastRecipients
        (step (run emptyState [.connection "X", .connection "Y", .joinRoom "Y" (.str "X")])
          (.disconnect "Y")).1.sids "Y" "X" = ["X"] := by
  decide

/-- C4, as stated, fails: after socket E has sent 'join room' for "a" and then for "b",
it is a member of both rooms. -/
theorem member_of_two_rooms :
    "E" ∈ members (run emptyState joinedTwice) "a" ∧
      "E" ∈ members (run emptyState joinedTwice) "b" ∧
      (run emptyState joinedTwice).rooms = [("a", ["E"]), ("b", ["E"])] := by
  decide

/-- C4, amended: after any sequence of events in which no endpoint sends 'join room'
while it is recorded in a room, every endpoint is in the member set of at most one room:
at most one entry of `rooms` lists it. -/
theorem member_of_one_room (evs : List Event) (e : String)
    (hj : joinsOnce emptyState evs = true) :
    ((run emptyState evs).rooms.filter (fun p => decide (e ∈ p.2))).length ≤ 1 := by
  have hs := sound_run evs emptyState sound_emptyState
  have hx := exclusive_run evs emptyState exclusive_emptyState hj
  have hnd : ((run emptyState evs).rooms.filter (fun p => decide (e ∈ p.2))).Nodup :=
    List.Nodup.filter _ (List.Nodup.of_map _ hs.roomKeys)
  have hall : ∀ p ∈ (run emptyState evs).rooms.filter (fun p => decide (e ∈ p.2)),
      ∀ q ∈ (run emptyState evs).rooms.filter (fun p => decide (e ∈ p.2)), p = q := by
    intro p hp q hq
    simp only [List.mem_filter, decide_eq_true_eq] at hp hq
    exact rooms_of_member_unique _ hs hx e p q hp.1 hq.1 hp.2 hq.2
  generalize (run emptyState evs).rooms.filter (fun p => decide (e ∈ p.2)) = l at hnd hall
  match l, hnd, hall with
  | [], _, _ => simp
  | [_], _, _ => simp
  | a :: b :: t, hnd, hall =>
    have hab : a = b := hall a (by simp) b (by simp)
    subst hab
    simp at hnd

/-- Witness of C4 amended: A and C join room "a", B joins room "b"; one entry lists A. -/
theorem member_of_one_room_witness :
    joinsOnce emptyState twoRooms = true ∧
      ((run emptyState twoRooms).rooms.filter (fun p => decide ("A" ∈ p.2))).length ≤ 1 :=
  ⟨by decide, member_of_one_room twoRooms "A" (by decide)⟩

/-- C5, as stated, fails. Socket M names itself as the target of a 'sending signal': the
one message is addressed to the room of M's own id and M, the submitter, receives it.
And a payload whose `callerID` is present with the value 0 is dropped, not forwarded. -/
theorem signal_reaches_submitter :
    sendingSignal (run emptyState [.connection "M"]) "M"
        (.obj [("userToSignal", .str "M"), ("callerID", .str "M"), ("signal", sampleOffer)])
      = (run emptyState [.connection "M"], [⟨.ioTo (.str "M"), "user joined",
          [.obj [("signal", sampleOffer), ("callerID", .str "M")]]⟩]) ∧
    recipients (run emptyState [.connection "M"]).sids (.ioTo (.str "M")) = some ["M"] ∧
    sendingSignal (run emptyState [.connection "M"]) "M"
        (.obj [("userToSignal", .str "V"), ("callerID", .num 0), ("signal", sampleOffer)])
      = (run emptyState [.connection "M"], []) :=
  ⟨rfl, by decide, rfl⟩

/-- C5, amended: a 'sending signal' whose `userToSignal`, `callerID` and `signal` are all
truthy, or a 'returning signal' whose `callerID` and `signal` are truthy, makes the relay
emit exactly one message, addressed to the socket.io room named by the target and
carrying the submitted signal body as it is; the relay makes no other emit, so no error
or acknowledgement goes to the submitter, whatever the state (so also when the target is
not connected); the state is unchanged. After a sequence of events in which no room is
named like a socket id, a message addressed to the id `t` of an endpoint is received by
`t` alone when `t` is connected and by nobody otherwise, so the submitter receives it
only when it names itself. -/
theorem signal_forwarded_once (s : ServerState) (e : String) (payload : JSVal)
    (evs : List Event) (t : String) :
    ((payload.getProp "userToSignal").truthy = true →
      (payload.getProp "callerID").truthy = true →
      (payload.getProp "signal").truthy = true →
        sendingSignal s e payload
          = (s, [⟨.ioTo (payload.getProp "userToSignal"), "user joined",
                  [.obj [("signal", payload.getProp "signal"),
                         ("callerID", payload.getProp "callerID")]]⟩])) ∧
      ((payload.getProp "callerID").truthy = true →
        (payload.getProp "signal").truthy = true →
          returningSignal s e payload
            = (s, [⟨.ioTo (payload.getProp "callerID"), "receiving returned signal",
                    [.obj [("signal", payload.getProp "signal"), ("id", .str e)]]⟩])) ∧
      ((∀ x ∈ requestedRooms evs, x ∉ endpointIds evs) → t ∈ endpointIds evs →
        recipients (run emptyState evs).sids (.ioTo (.str t))
          = some (if connected (run emptyState evs) t = true then [t] else [])) := by
  refine ⟨?_, ?_, ?_⟩
  · intro h1 h2 h3
    simp [sendingSignal, truthy_of_getProp payload _ h1, h1, h2, h3]
  · intro h2 h3
    simp [returningSignal, truthy_of_getProp payload _ h2, h2, h3]
  · intro hsep ht
    have ha := apart_of_separate (endpointIds evs) evs (fun _ h => h) hsep
    have ho := ownRooms_run (endpointIds evs) evs emptyState (ownRooms_emptyState _) ha
    have hs := sound_run evs emptyState sound_emptyState
    show some (roomSockets (run emptyState evs).sids t) = _
    rw [roomSockets_of_socket_id (endpointIds evs) _ t hs ho ht]

/-- Witness of C5 amended: M sends an offer for V while nobody is connected, M returns
an answer to V, and with X, Y, Z, W in room "abc" and V connected, a message for X is
received by X alone. -/
theorem signal_forwarded_once_witness :
    sendingSignal emptyState "M"
        (.obj [("userToSignal", .str "V"), ("callerID", .str "M"), ("signal", sampleOffer)])
      = (emptyState, [⟨.ioTo (.str "V"), "user joined",
          [.obj [("signal", sampleOffer), ("callerID", .str "M")]]⟩]) ∧
    returningSignal emptyState "M" (.obj [("callerID", .str "V"), ("signal", sampleOffer)])
      = (emptyState, [⟨.ioTo (.str "V"), "receiving returned signal",
          [.obj [("signal", sampleOffer), ("id", .str "M")]]⟩]) ∧
    recipients (run emptyState fourJoined).sids (.ioTo (.str "X")) = some ["X"] :=
  ⟨(signal_forwarded_once emptyState "M"
      (.obj [("userToSignal", .str "V"), ("callerID", .str "M"), ("signal", sampleOffer)])
      [] "").1 (by decide) (by decide) (by decide),
    (signal_forwarded_once emptyState "M"
      (.obj [("callerID", .str "V"), ("signal", sampleOffer)]) [] "").2.1
      (by decide) (by decide),
    (signal_forwarded_once emptyState "M" .null fourJoined "X").2.2 (by decide)
      (by decide)⟩

/-- C6, as stated, fails: a 'sending signal' whose payload has `callerID` and `signal`
but no `userToSignal` emits nothing, so no error notification reaches the submitter. -/
theorem malformed_signal_no_error :
    sendingSignal emptyState "M" (.obj [("callerID", .str "M"), ("signal", sampleOffer)])
      = (emptyState, []) := by
  rfl

/-- C6, amended: a 'sending signal' whose payload lacks the target, the sender or the
signal body, and a 'returning signal' whose payload lacks the target or the signal body,
is dropped silently: the relay emits nothing at all, neither an error to the submitter nor
a delivery to anyone, and the state is unchanged. -/
theorem malformed_signal_dropped (s : ServerState) (e : String) (payload : JSVal) :
    (((payload.getProp "userToSignal").truthy = false ∨
        (payload.getProp "callerID").truthy = false ∨
        (payload.getProp "signal").truthy = false) →
        sendingSignal s e payload = (s, [])) ∧
      (((payload.getProp "callerID").truthy = false ∨
        (payload.getProp "signal").truthy = false) →
        returningSignal s e payload = (s, [])) := by
  constructor
  · rintro (h | h | h) <;> simp [sendingSignal, h]
  · rintro (h | h) <;> simp [returningSignal, h]

/-- Witness of C6 amended: the payload without `userToSignal`, for both handlers a
payload without `signal`. -/
theorem malformed_signal_dropped_witness :
    sendingSignal emptyState "M" (.obj [("callerID", .str "M"), ("signal", sampleOffer)])
        = (emptyState, []) ∧
      returningSignal emptyState "M" (.obj [("callerID", .str "V")]) = (emptyState, []) :=
  ⟨(malformed_signal_dropped emptyState "M"
      (.obj [("callerID", .str "M"), ("signal", sampleOffer)])).1 (Or.inl (by decide)),
    (malformed_signal_dropped emptyState "M"
      (.obj [("callerID", .str "V")])).2 (Or.inr (by decide))⟩

/-- C7: in a reachable state a 'join room' of `e` with argument `roomID` has three
outcomes. If `roomID` is not a non-empty string, the state is unchanged and the only
message is 'error' to `e`. If it is a non-empty string naming a room with 4 members, the
state is unchanged and the only message is 'room full' to `e`. Otherwise the join is
accepted: `e` is a member of the room and recorded for it, and the only message is
'all users', so neither notification is emitted. -/
theorem join_rejected_iff (evs : List Event) (e : String) (roomID : JSVal) :
    ((¬ ∃ r, roomID = .str r ∧ r ≠ "") →
        joinRoom (run emptyState evs) e roomID
          = (run emptyState evs, [⟨.socket e, "error",
              [.obj [("message", .str "Invalid room ID")]]⟩])) ∧
      (∀ r, roomID = .str r → r ≠ "" → (members (run emptyState evs) r).length = 4 →
        joinRoom (run emptyState evs) e roomID
          = (run emptyState evs, [⟨.socket e, "room full", []⟩])) ∧
      (∀ r, roomID = .str r → r ≠ "" → (members (run emptyState evs) r).length ≠ 4 →
        (joinRoom (run emptyState evs) e roomID).2
            = [⟨.socket e, "all users",
                [.arr (((members (run emptyState evs) r).filter
                  (fun id => decide (id ≠ e))).map JSVal.str)]⟩] ∧
          e ∈ members (joinRoom (run emptyState evs) e roomID).1 r ∧
          mapGet (joinRoom (run emptyState evs) e roomID).1.socketToRoom e = some r) := by
  refine ⟨?_, ?_, ?_⟩
  · intro hbad
    rw [joinRoom_invalid]
    · rfl
    · intro r hroom
      by_contra hr
      exact hbad ⟨r, hroom, hr⟩
  · intro r hroom hr hlen
    subst hroom
    exact joinRoom_full _ e r hr (by omega)
  · intro r hroom hr hlen
    subst hroom
    have hle := members_length _ (sound_run evs emptyState sound_emptyState) r
    have hlt : (members (run emptyState evs) r).length < 4 := by omega
    rw [joinRoom_accept _ e r hr hlt]
    refine ⟨by simp only [filter_setAdd], ?_, ?_⟩
    · rw [members_mapSet]
      simp [mem_setAdd]
    · simp [mapGet_mapSet]

/-- Witness of C7: with X, Y, Z, W in room "abc", V is refused with 'error' for the room
id 7, refused with 'room full' for "abc", and accepted into "xyz". -/
theorem join_rejected_iff_witness :
    joinRoom (run emptyState fourJoined) "V" (.num 7)
        = (run emptyState fourJoined, [⟨.socket "V", "error",
            [.obj [("message", .str "Invalid room ID")]]⟩]) ∧
      joinRoom (run emptyState fourJoined) "V" (.str "abc")
        = (run emptyState fourJoined, [⟨.socket "V", "room full", []⟩]) ∧
      mapGet (joinRoom (run emptyState fourJoined) "V" (.str "xyz")).1.socketToRoom "V"
        = some "xyz" :=
  ⟨(join_rejected_iff fourJoined "V" (.num 7)).1 (by simp),
    (join_rejected_iff fourJoined "V" (.str "abc")).2.1 "abc" rfl (by decide) (by decide),
    ((join_rejected_iff fourJoined "V" (.str "xyz")).2.2 "xyz" rfl (by decide)
      (by decide)).2.2⟩

/-- C8: when 'all users' delivers a roster of distinct identifiers to a client whose
peers map is empty, then after the handler has run the keys of `peers` are exactly the
listed identifiers, one entry each, and the entry of every listed identifier refers to a
peer connection created for that identifier. -/
theorem roster_creates_links (c : ClientState) (users stream : List String)
    (hempty : c.peers = []) (hd : users.Nodup) :
    (onAllUsers c users stream).peers.map Prod.fst = users ∧
      (onAllUsers c users stream).peers.length = users.length ∧
      ∀ u ∈ users, ∃ pc conn, mapGet (onAllUsers c users stream).peers u = some pc ∧
        (onAllUsers c users stream).heap[pc]? = some conn ∧ conn.remote = u := by
  have hkeys := keys_onAllUsers users stream c (by simp [hempty]) hd
  have hlink := linked_onAllUsers users stream c (by
    intro u pc h
    simp [hempty, mapGet] at h)
  simp only [hempty, List.map_nil, List.nil_append] at hkeys
  refine ⟨hkeys, ?_, ?_⟩
  · have hlen := congrArg List.length hkeys
    simpa using hlen
  · intro u hu
    cases hget : mapGet (onAllUsers c users stream).peers u with
    | none =>
      rw [← hkeys] at hu
      exact absurd hu ((mapGet_eq_none_iff _ _).1 hget)
    | some pc =>
      obtain ⟨conn, h1, h2⟩ := hlink u pc hget
      exact ⟨pc, conn, rfl, h1, h2⟩

/-- Witness of C8: the roster [A, B, C] yields exactly 3 peer links. -/
theorem roster_creates_links_witness :
    (onAllUsers freshClient ["A", "B", "C"] ["cam", "mic"]).peers.map Prod.fst
        = ["A", "B", "C"] ∧
      (onAllUsers freshClient ["A", "B", "C"] ["cam", "mic"]).peers.length = 3 :=
  ⟨(roster_creates_links freshClient ["A", "B", "C"] ["cam", "mic"] rfl (by decide)).1,
    (roster_creates_links freshClient ["A", "B", "C"] ["cam", "mic"] rfl (by decide)).2.1⟩

/-- C9, as stated, fails: a client without peers receives an ICE candidate from the
unknown endpoint X; afterwards `peers` has an entry for X and one peer connection has
been created. -/
theorem stray_candidate_not_dropped :
    freshClient.peers = [] ∧
      (handleIncomingSignal sampleBrowser freshClient sampleCandidate "X"
        (some ["cam", "mic"])).peers = [("X", 0)] ∧
      (handleIncomingSignal sampleBrowser freshClient sampleCandidate "X"
        (some ["cam", "mic"])).heap.length = 1 := by
  decide

/-- C9, amended: take an inbound signal that is an ICE candidate (truthy, with a
`candidate` field, type not 'offer') from a `callerID` without entry in `peers`. If
`callerID` is not the name of a property inherited from `Object.prototype`,
`handleIncomingSignal` creates one peer connection for `callerID` and stores it under
that key: the other keys read as before, the former connections are untouched, and
nothing is sent to the relay. If `callerID` is such a name, the read returns the
inherited value, no connection is created and the state is unchanged. -/
theorem stray_candidate_creates_link (w : WebRTC) (c : ClientState) (signal : JSVal)
    (callerID : String) (stream : Option (List String))
    (hnew : mapGet c.peers callerID = none) (hsig : signal.truthy = true)
    (hnot : (signal.getProp "type").isStr "offer" = false)
    (hcand : (signal.getProp "candidate").truthy = true) :
    (callerID ∉ objectPrototypeKeys →
      mapGet (handleIncomingSignal w c signal callerID stream).peers callerID
          = some c.heap.length ∧
        (∀ k, k ≠ callerID →
          mapGet (handleIncomingSignal w c signal callerID stream).peers k
            = mapGet c.peers k) ∧
        (handleIncomingSignal w c signal callerID stream).heap.length
          = c.heap.length + 1 ∧
        (∃ conn, (handleIncomingSignal w c signal callerID stream).heap[c.heap.length]?
          = some conn ∧ conn.remote = callerID) ∧
        (∀ i, i < c.heap.length →
          (handleIncomingSignal w c signal callerID stream).heap[i]? = c.heap[i]?) ∧
        (handleIncomingSignal w c signal callerID stream).sent = c.sent) ∧
      (callerID ∈ objectPrototypeKeys →
        handleIncomingSignal w c signal callerID stream = c) := by
  constructor
  · intro hproto
    have hfind : findOrCreatePeer c callerID stream
        = (⟨c.id, mapSet c.peers callerID c.heap.length,
            c.heap ++ [addTracks (createPeerConnection callerID) (stream.getD [])],
            c.sent⟩, some c.heap.length) := by
      simp [findOrCreatePeer, hnew, hproto]
    have hkeys : ∀ k, k ≠ callerID →
        mapGet (mapSet c.peers callerID c.heap.length) k = mapGet c.peers k := by
      intro k hk
      rw [mapGet_mapSet]
      simp [Ne.symm hk]
    have hkey : mapGet (mapSet c.peers callerID c.heap.length) callerID
        = some c.heap.length := by
      rw [mapGet_mapSet]
      simp
    by_cases hice : w.addIceCandidate
        (addTracks (createPeerConnection callerID) (stream.getD [])) signal = true
    · have hres : handleIncomingSignal w c signal callerID stream
          = ⟨c.id, mapSet c.peers callerID c.heap.length,
              (c.heap ++ [addTracks (createPeerConnection callerID) (stream.getD [])]).set
                c.heap.length
                (withCandidate (addTracks (createPeerConnection callerID) (stream.getD []))
                  signal), c.sent⟩ := by
        unfold handleIncomingSignal
        simp only [hfind, List.getElem?_concat_length, hsig, hnot, hcand, Bool.and_false,
          Bool.and_true, Bool.false_eq_true, if_false, if_true, hice]
      rw [hres]
      refine ⟨hkey, hkeys, by simp, ⟨withCandidate (addTracks
        (createPeerConnection callerID) (stream.getD [])) signal,
        by simp [List.getElem?_set], rfl⟩, ?_, rfl⟩
      intro i hi
      have hne : c.heap.length ≠ i := by omega
      simp only [List.getElem?_set_ne hne, List.getElem?_append_left hi]
    · have hres : handleIncomingSignal w c signal callerID stream
          = ⟨c.id, mapSet c.peers callerID c.heap.length,
              c.heap ++ [addTracks (createPeerConnection callerID) (stream.getD [])],
              c.sent⟩ := by
        unfold handleIncomingSignal
        simp only [hfind, List.getElem?_concat_length, hsig, hnot, hcand, Bool.and_false,
          Bool.and_true, Bool.false_eq_true, if_false, if_true, hice]
      rw [hres]
      refine ⟨hkey, hkeys, by simp, ⟨_, List.getElem?_concat_length _ _, rfl⟩, ?_, rfl⟩
      intro i hi
      simp only [List.getElem?_append_left hi]
  · intro hproto
    have hfind : findOrCreatePeer c callerID stream = (c, none) := by
      simp [findOrCreatePeer, hnew, hproto]
    unfold handleIncomingSignal
    simp only [hfind]

/-- Witness of C9 amended: the candidate from X, and the candidate from a caller that
names itself "constructor", at a client without peers. -/
theorem stray_candidate_creates_link_witness :
    mapGet (handleIncomingSignal sampleBrowser freshClient sampleCandidate "X"
        (some ["cam", "mic"])).peers "X" = some freshClient.heap.length ∧
      handleIncomingSignal sampleBrowser freshClient sampleCandidate "constructor"
        (some ["cam", "mic"]) = freshClient :=
  ⟨((stray_candidate_creates_link sampleBrowser freshClient sampleCandidate "X"
      (some ["cam", "mic"]) rfl (by decide) (by decide) (by decide)).1 (by decide)).1,
    (stray_candidate_creates_link sampleBrowser freshClient sampleCandidate "constructor"
      (some ["cam", "mic"]) rfl (by decide) (by decide) (by decide)).2 (by decide)⟩

/-- C10 fails for 'sending signal': socket M submits two payloads that differ only in
their `callerID` field, and the relay forwards two different sender identifiers, X and
then Y, neither of them M. For 'returning signal' the forwarded `id` is the submitter. -/
theorem forwarded_sender_is_payload_field :
    sendingSignal emptyState "M"
        (.obj [("userToSignal", .str "V"), ("callerID", .str "X"), ("signal", sampleOffer)])
      = (emptyState, [⟨.ioTo (.str "V"), "user joined",
          [.obj [("signal", sampleOffer), ("callerID", .str "X")]]⟩]) ∧
    sendingSignal emptyState "M"
        (.obj [("userToSignal", .str "V"), ("callerID", .str "Y"), ("signal", sampleOffer)])
      = (emptyState, [⟨.ioTo (.str "V"), "user joined",
          [.obj [("signal", sampleOffer), ("callerID", .str "Y")]]⟩]) ∧
    returningSignal emptyState "M" (.obj [("callerID", .str "V"), ("signal", sampleOffer)])
      = (emptyState, [⟨.ioTo (.str "V"), "receiving returned signal",
          [.obj [("signal", sampleOffer), ("id", .str "M")]]⟩]) :=
  ⟨rfl, rfl, rfl⟩

end VideoCall
